import Mathlib

/-!
Shallow embedding of the polyvol trading daemon core, translated from the
Python source (`src/core/models.py`, `src/strategies/base.py`,
`src/strategies/runner.py`, `src/collection/price_collector.py`), together
with proofs settling the frozen claims about the natural-language spec.

Prices, stakes and times are modelled as rationals; timestamps are seconds.
Python `x if x else d` truthiness on optional floats is modelled by
`truthyOr`, which falls back both on `None` and on `0.0`.
-/

namespace Polyvol

/-- `models.Side`. -/
inductive Side where
  | YES
  | NO
deriving DecidableEq, Repr

/-- `models.TradeStatus`. -/
inductive TradeStatus where
  | OPEN
  | CLOSED
deriving DecidableEq, Repr

/-- `models.ExitReason`. -/
inductive ExitReason where
  | TAKE_PROFIT
  | RESOLUTION_EXIT
  | TIME_STOP
  | RESOLUTION_WIN
  | RESOLUTION_LOSS
  | MANUAL
deriving DecidableEq, Repr

/-- `strategies.base.ExitSignal`. -/
inductive ExitSignal where
  | HOLD
  | TAKE_PROFIT
  | RESOLUTION_EXIT
  | TIME_STOP
deriving DecidableEq, Repr

/-- `models.PriceUpdate` (fields relevant to the engine; datetimes are ℚ seconds). -/
structure PriceUpdate where
  market_id : String
  condition_id : String
  asset : String
  yes_price : ℚ
  no_price : ℚ
  time_remaining : Option ℚ := none
  timestamp : ℚ := 0
  yes_bid : Option ℚ := none
  yes_ask : Option ℚ := none
  no_bid : Option ℚ := none
  no_ask : Option ℚ := none
deriving DecidableEq, Repr

/-- `models.Position` (context fields not used by the engine are omitted). -/
structure Position where
  strategy_id : String
  market_id : String
  condition_id : String
  asset : String
  side : Side
  entry_price : ℚ
  entry_time : ℚ
  shares : ℚ
  time_remaining_at_entry : Option ℚ := none
deriving DecidableEq, Repr

/-- `models.Trade`. -/
structure Trade where
  id : Option ℕ := none
  strategy_id : String
  market_id : String
  condition_id : String
  asset : String
  side : Side
  entry_price : ℚ
  entry_time : ℚ
  shares : ℚ
  exit_price : Option ℚ := none
  exit_time : Option ℚ := none
  exit_reason : Option ExitReason := none
  pnl : Option ℚ := none
  pnl_pct : Option ℚ := none
  is_win : Option Bool := none
  time_remaining_at_entry : Option ℚ := none
  time_remaining_at_exit : Option ℚ := none
  status : TradeStatus := TradeStatus.OPEN
  is_paper : Bool := true
deriving DecidableEq, Repr

/-- `models.Trade.close`: sets the exit fields, computes P&L and the win flag.
The Python branches on `side` but both branches compute the same `pnl_pct`. -/
def Trade.close (t : Trade) (exit_price : ℚ) (exit_reason : ExitReason)
    (time_remaining : Option ℚ) (now : ℚ) : Trade :=
  let pnl_pct : ℚ :=
    if t.side = Side.YES then (exit_price - t.entry_price) / t.entry_price
    else (exit_price - t.entry_price) / t.entry_price
  { t with
    exit_price := some exit_price
    exit_time := some now
    exit_reason := some exit_reason
    time_remaining_at_exit := time_remaining
    status := TradeStatus.CLOSED
    pnl_pct := some pnl_pct
    pnl := some (t.shares * t.entry_price * pnl_pct)
    is_win := some (decide (exit_reason = ExitReason.TAKE_PROFIT ∨
                            exit_reason = ExitReason.RESOLUTION_WIN)) }

/-- Python truthiness fallback `x if x else d` on an optional float:
the default is used when the value is absent or equal to `0.0`. -/
def truthyOr (o : Option ℚ) (d : ℚ) : ℚ :=
  match o with
  | none => d
  | some x => if x = 0 then d else x

/-- `x is not None and x < c` on an optional float. -/
def timeBelow (o : Option ℚ) (c : ℚ) : Bool :=
  match o with
  | some t => decide (t < c)
  | none => false

/-- `strategies.base.EntrySignal`. -/
structure EntrySignal where
  should_enter : Bool
  side : Side
  price : ℚ
  confidence : String := "medium"
  reason : String := ""
deriving DecidableEq, Repr

/-- `strategies.base.BaseStrategy` (the per-strategy state; `positions`
is the `condition_id → Position` dict). -/
structure BaseStrategy where
  id : String
  name : String := ""
  tier : ℕ := 0
  entry_threshold : ℚ
  exit_threshold : ℚ
  direction : String := "normal"
  positions : List (String × Position) := []
deriving DecidableEq, Repr

/-- `BaseStrategy._get_confidence`. -/
def BaseStrategy.get_confidence (s : BaseStrategy) : String :=
  if s.entry_threshold ≤ (0.10 : ℚ) then "high"
  else if s.entry_threshold ≤ (0.20 : ℚ) then "medium"
  else "low"

/-- `BaseStrategy.check_entry`: the entry decision for one price update. -/
def BaseStrategy.check_entry (s : BaseStrategy) (u : PriceUpdate) : EntrySignal :=
  if timeBelow u.time_remaining 180 then
    { should_enter := false, side := Side.YES, price := 0, reason := "Market expiring soon" }
  else if (s.positions.find? (fun q => decide (q.1 = u.condition_id))).isSome then
    { should_enter := false, side := Side.YES, price := 0 }
  else if s.direction = "fade" then
    let buy_price := truthyOr u.no_ask u.no_price
    let trigger_price := truthyOr u.yes_bid u.yes_price
    let width : ℚ := if s.entry_threshold ≥ (0.90 : ℚ) then (0.10 : ℚ) else (0.05 : ℚ)
    let max_trigger := min 1 (s.entry_threshold + width)
    if s.entry_threshold ≤ trigger_price ∧ trigger_price < max_trigger then
      { should_enter := true, side := Side.NO, price := buy_price,
        confidence := s.get_confidence, reason := "Fade entry" }
    else
      { should_enter := false, side := Side.YES, price := 0 }
  else
    let buy_price := truthyOr u.yes_ask u.yes_price
    let min_entry := max 0 (s.entry_threshold - (0.05 : ℚ))
    if min_entry < buy_price ∧ buy_price ≤ s.entry_threshold then
      { should_enter := true, side := Side.YES, price := buy_price,
        confidence := s.get_confidence, reason := "Deep value entry" }
    else
      { should_enter := false, side := Side.YES, price := 0 }

/-- The `current_price` local of `check_exit`: we sell at the position side's
bid, with truthiness fallback to that side's mid price. -/
def currentPrice (position : Position) (u : PriceUpdate) : ℚ :=
  if position.side = Side.YES then truthyOr u.yes_bid u.yes_price
  else truthyOr u.no_bid u.no_price

/-- The `exit_target` local of `check_exit`: `1 - exit_threshold` for a fade
strategy, `exit_threshold` otherwise. -/
def exitTarget (s : BaseStrategy) : ℚ :=
  if s.direction = "fade" then 1 - s.exit_threshold else s.exit_threshold

/-- `BaseStrategy.check_exit`: the exit decision for one open position,
first match wins.  The time-stop rule was removed in the source; its
threshold parameter is unused. -/
def BaseStrategy.check_exit (s : BaseStrategy) (position : Position) (u : PriceUpdate)
    (resolution_threshold : ℚ) (time_stop_threshold : ℚ) : ExitSignal × ℚ :=
  let _ := time_stop_threshold
  let current_price := currentPrice position u
  let exit_target := exitTarget s
  if current_price ≥ exit_target ∧ current_price > position.entry_price then
    (ExitSignal.TAKE_PROFIT, current_price)
  else if timeBelow u.time_remaining resolution_threshold then
    (ExitSignal.RESOLUTION_EXIT, current_price)
  else
    (ExitSignal.HOLD, current_price)

/-- `BaseStrategy.open_position`: tracks a new position; its entry price is the
side's mid price from the update (not the executed ask). -/
def BaseStrategy.open_position (s : BaseStrategy) (u : PriceUpdate) (side : Side)
    (shares : ℚ) (now : ℚ) : BaseStrategy :=
  let entry_price := if side = Side.YES then u.yes_price else u.no_price
  let p : Position :=
    { strategy_id := s.id, market_id := u.market_id, condition_id := u.condition_id,
      asset := u.asset, side := side, entry_price := entry_price, entry_time := now,
      shares := shares, time_remaining_at_entry := u.time_remaining }
  { s with positions :=
      (u.condition_id, p) :: s.positions.filter (fun q => ! decide (q.1 = u.condition_id)) }

/-- `BaseStrategy.close_position`: stops tracking a position. -/
def BaseStrategy.close_position (s : BaseStrategy) (cid : String) : BaseStrategy :=
  { s with positions := s.positions.filter (fun q => ! decide (q.1 = cid)) }

/-! ## The strategy runner (`strategies/runner.py`)

The runner's mutable state and the body of `_process_price` for a single
strategy (`_check_exits` followed by `_check_entries`) are embedded as a
deterministic step function.  External nondeterminism (wall clock, live-order
outcomes, token availability) is supplied through `StepInput`.  Each step also
produces a list of observable `Event`s used to state temporal properties. -/

/-- Spending limit hardcoded in `StrategyRunner.start` (`$5`). -/
def spendingLimit : ℚ := 5

/-- Spending window duration hardcoded in `StrategyRunner.start` (15 minutes). -/
def spendingWindowDuration : ℚ := 900

/-- Re-entry cooldown set in `_check_exits` (15 minutes). -/
def cooldownDuration : ℚ := 900

/-- Observable events of one runner step: an entry was recorded, a trade was
closed, the spending window was reset, a live sell order was attempted. -/
inductive Event where
  | entered (sid cid : String) (stake : ℚ) (is_live : Bool) (time : ℚ)
  | closed (sid cid : String) (reason : ExitReason) (price : ℚ) (time : ℚ)
  | reset
  | sellOrder (ok : Bool)
deriving DecidableEq, Repr

/-- Configuration visible to the runner: the mode and the exit thresholds
(`exits.resolution_exit_threshold` default 120, `exits.time_stop_threshold`
default 600). -/
structure RunnerConfig where
  live_mode : Bool
  resolution_exit_threshold : ℚ := 120
  time_stop_threshold : ℚ := 600
deriving DecidableEq, Repr

/-- The runner's mutable state: the strategy objects, the enabled-id set, the
open-trade cache, the cooldown map, the Store's `trades` table, the spending
window, and the wall clock of the last processed step. -/
structure RunnerState where
  strategies : List BaseStrategy
  enabled_strategy_ids : List String
  open_trades : List ((String × String) × Trade)
  cooldowns : List ((String × String) × ℚ)
  trades_db : List Trade
  spending_window_start : ℚ
  spent_in_window : ℚ
  clock : ℚ
deriving DecidableEq, Repr

/-- External inputs of one step: which strategy is processed, the price update,
the wall clock, and the outcomes of the external executor calls. -/
structure StepInput where
  strategy_id : String
  u : PriceUpdate
  now : ℚ
  has_token : Bool
  buy_succeeds : Bool
  exit_has_token : Bool
  sell_succeeds : Bool
deriving DecidableEq, Repr

/-- Dict lookup on an association list keyed by `(strategy_id, condition_id)`. -/
def lookupKey {α : Type} (l : List ((String × String) × α)) (k : String × String) : Option α :=
  (l.find? (fun p => decide (p.1 = k))).map (fun p => p.2)

/-- Dict deletion. -/
def eraseKey {α : Type} (l : List ((String × String) × α)) (k : String × String) :
    List ((String × String) × α) :=
  l.filter (fun p => ! decide (p.1 = k))

/-- Dict assignment. -/
def insertKey {α : Type} (l : List ((String × String) × α)) (k : String × String) (v : α) :
    List ((String × String) × α) :=
  (k, v) :: eraseKey l k

/-- Modelled from the spec: `Database.has_traded_market` is invoked by
`_check_entries` (runner.py line 241) but no such method exists on the
`Database` class under `src/`; per the spec, `everTraded(key)` "queries Store
for any row (open or closed) with that `(strategyId, conditionId)`". -/
def Database.has_traded_market (trades_db : List Trade) (sid cid : String) : Bool :=
  trades_db.any (fun t => decide (t.strategy_id = sid) && decide (t.condition_id = cid))

/-- Replace a strategy object (identified by id) in the runner's dict. -/
def updateStrategy (l : List BaseStrategy) (st : BaseStrategy) : List BaseStrategy :=
  l.map (fun q => if q.id = st.id then st else q)

/-- Tail of `_check_entries` after the entry signal fired: the trade record is
created, saved to the Store (its id is the next row id), cached in
`open_trades`, and mirrored into the strategy's position tracker. -/
def recordEntry (s : RunnerState) (strat : BaseStrategy) (inp : StepInput)
    (signal : EntrySignal) (shares bet_size : ℚ) (is_paper : Bool) (evs : List Event) :
    RunnerState × List Event :=
  let trade : Trade :=
    { id := some s.trades_db.length, strategy_id := strat.id, market_id := inp.u.market_id,
      condition_id := inp.u.condition_id, asset := inp.u.asset, side := signal.side,
      entry_price := signal.price, entry_time := inp.now, shares := shares,
      time_remaining_at_entry := inp.u.time_remaining, status := TradeStatus.OPEN,
      is_paper := is_paper }
  ({ s with
      trades_db := s.trades_db ++ [trade]
      open_trades := insertKey s.open_trades (strat.id, inp.u.condition_id) trade
      strategies := updateStrategy s.strategies
        (strat.open_position inp.u signal.side shares inp.now) },
   evs ++ [Event.entered strat.id inp.u.condition_id bet_size (! is_paper) inp.now])

/-- `_check_entries` from the point where the entry signal fired: the fixed
`$1` test stake, the (duplicated) spending-window check, and the live/paper
execution split.  A window reset persists even when the entry is then
rejected; the spend accumulator is incremented only when a live order is
successfully placed. -/
def entryFire (cfg : RunnerConfig) (s : RunnerState) (strat : BaseStrategy)
    (inp : StepInput) (signal : EntrySignal) : RunnerState × List Event :=
  let bet_size : ℚ := 1
  let doReset1 : Bool := decide (inp.now - s.spending_window_start > spendingWindowDuration)
  let ws1 := if doReset1 then inp.now else s.spending_window_start
  let sp1 := if doReset1 then 0 else s.spent_in_window
  let ev1 : List Event := if doReset1 then [Event.reset] else []
  let s1 := { s with spending_window_start := ws1, spent_in_window := sp1 }
  if sp1 + bet_size > spendingLimit then (s1, ev1)
  else
    let shares := if signal.price > 0 then bet_size / signal.price else 0
    let doReset2 : Bool := decide (inp.now - s1.spending_window_start > spendingWindowDuration)
    let ws2 := if doReset2 then inp.now else s1.spending_window_start
    let sp2 := if doReset2 then 0 else s1.spent_in_window
    let ev2 : List Event := if doReset2 then [Event.reset] else []
    let s2 := { s1 with spending_window_start := ws2, spent_in_window := sp2 }
    if sp2 + bet_size > spendingLimit then (s2, ev1 ++ ev2)
    else if cfg.live_mode ∧ inp.has_token then
      if inp.buy_succeeds then
        recordEntry { s2 with spent_in_window := sp2 + bet_size }
          strat inp signal shares bet_size false (ev1 ++ ev2)
      else
        (s2, ev1 ++ ev2)
    else
      recordEntry s2 strat inp signal shares bet_size true (ev1 ++ ev2)

/-- `_check_entries` after the cooldown gate: the one-shot Store query and the
entry signal. -/
def checkEntriesAfterCooldown (cfg : RunnerConfig) (s : RunnerState)
    (strat : BaseStrategy) (inp : StepInput) : RunnerState × List Event :=
  if Database.has_traded_market s.trades_db strat.id inp.u.condition_id then (s, [])
  else
    let signal := strat.check_entry inp.u
    if signal.should_enter then entryFire cfg s strat inp signal
    else (s, [])

/-- `_check_entries`: enabled gate, open-trade gate, cooldown gate (an expired
cooldown is deleted), then the one-shot gate and the signal. -/
def checkEntries (cfg : RunnerConfig) (s : RunnerState) (strat : BaseStrategy)
    (inp : StepInput) : RunnerState × List Event :=
  if ! s.enabled_strategy_ids.contains strat.id then (s, [])
  else if (lookupKey s.open_trades (strat.id, inp.u.condition_id)).isSome then (s, [])
  else
    match lookupKey s.cooldowns (strat.id, inp.u.condition_id) with
    | some untilT =>
      if inp.now < untilT then (s, [])
      else
        checkEntriesAfterCooldown cfg
          { s with cooldowns := eraseKey s.cooldowns (strat.id, inp.u.condition_id) }
          strat inp
    | none => checkEntriesAfterCooldown cfg s strat inp

/-- `_check_exits` maps the exit signal to a stored exit reason
(`reason_map.get(exit_signal, ExitReason.MANUAL)`). -/
def reasonMap (sig : ExitSignal) : ExitReason :=
  match sig with
  | ExitSignal.TAKE_PROFIT => ExitReason.TAKE_PROFIT
  | ExitSignal.RESOLUTION_EXIT => ExitReason.RESOLUTION_EXIT
  | ExitSignal.TIME_STOP => ExitReason.TIME_STOP
  | ExitSignal.HOLD => ExitReason.MANUAL

/-- The position `_check_exits` evaluates against: the strategy's tracked
position when present, otherwise a temporary one rebuilt from the trade. -/
def exitPosition (strat : BaseStrategy) (inp : StepInput) (trade : Trade) : Position :=
  match strat.positions.find? (fun q => decide (q.1 = inp.u.condition_id)) with
  | some q => q.2
  | none =>
    { strategy_id := strat.id, market_id := inp.u.market_id,
      condition_id := inp.u.condition_id, asset := inp.u.asset, side := trade.side,
      entry_price := trade.entry_price, entry_time := trade.entry_time,
      shares := trade.shares }

/-- Tail of `_check_exits` after the decision fired: attempt the live sell
(its outcome only produces a log event), close the trade, persist the close
in the Store, evict the cache entry and the strategy's position, and arm the
cooldown after an adverse exit. -/
def exitFire (cfg : RunnerConfig) (s : RunnerState) (strat : BaseStrategy)
    (inp : StepInput) (trade : Trade) (dec : ExitSignal × ℚ) : RunnerState × List Event :=
  let key := (strat.id, inp.u.condition_id)
  let exit_reason := reasonMap dec.1
  let sellEvents : List Event :=
    if cfg.live_mode ∧ inp.exit_has_token then [Event.sellOrder inp.sell_succeeds]
    else []
  let closed := trade.close dec.2 exit_reason inp.u.time_remaining inp.now
  ({ s with
      trades_db := s.trades_db.map (fun r => if r.id = closed.id then closed else r)
      open_trades := eraseKey s.open_trades key
      strategies := updateStrategy s.strategies (strat.close_position inp.u.condition_id)
      cooldowns :=
        if exit_reason = ExitReason.RESOLUTION_EXIT ∨ exit_reason = ExitReason.TIME_STOP
        then insertKey s.cooldowns key (inp.now + cooldownDuration)
        else s.cooldowns },
   sellEvents ++ [Event.closed strat.id inp.u.condition_id exit_reason dec.2 inp.now])

/-- `_check_exits`: evaluate the exit decision for the cached open trade and
fire it when it is not `HOLD`. -/
def checkExits (cfg : RunnerConfig) (s : RunnerState) (strat : BaseStrategy)
    (inp : StepInput) : RunnerState × List Event :=
  match lookupKey s.open_trades (strat.id, inp.u.condition_id) with
  | none => (s, [])
  | some trade =>
    let dec := strat.check_exit (exitPosition strat inp trade) inp.u
      cfg.resolution_exit_threshold cfg.time_stop_threshold
    if dec.1 ≠ ExitSignal.HOLD then exitFire cfg s strat inp trade dec
    else (s, [])

/-- The body of `_process_price` for one strategy: exits are evaluated before
entries; the entry check sees the strategy object as mutated by the exit
check; the step's wall clock is recorded. -/
def processStrategy (cfg : RunnerConfig) (s : RunnerState) (inp : StepInput) :
    RunnerState × List Event :=
  match s.strategies.find? (fun st => decide (st.id = inp.strategy_id)) with
  | none => ({ s with clock := inp.now }, [])
  | some strat =>
    let r1 := checkExits cfg s strat inp
    let strat1 :=
      match r1.1.strategies.find? (fun st => decide (st.id = inp.strategy_id)) with
      | some st => st
      | none => strat
    let r2 := checkEntries cfg r1.1 strat1 inp
    ({ r2.1 with clock := inp.now }, r1.2 ++ r2.2)

/-- Run a sequence of steps, accumulating the event log. -/
def runSteps (cfg : RunnerConfig) : RunnerState → List StepInput → RunnerState × List Event
  | s, [] => (s, [])
  | s, i :: rest =>
    let r1 := processStrategy cfg s i
    let r2 := runSteps cfg r1.1 rest
    (r2.1, r1.2 ++ r2.2)

/-- The state after `StrategyRunner.start` on a fresh database: strategies
loaded with empty position trackers, no open trades, no cooldowns, an empty
trades table, and the spending window opened at `t0`. -/
def initState (strategies : List BaseStrategy) (enabled : List String) (t0 : ℚ) :
    RunnerState :=
  { strategies := strategies.map (fun st => { st with positions := [] })
    enabled_strategy_ids := enabled
    open_trades := []
    cooldowns := []
    trades_db := []
    spending_window_start := t0
    spent_in_window := 0
    clock := t0 }

/-- Runner states reachable from a fresh start by processing price updates with
a non-decreasing wall clock (`datetime.utcnow` is monotone). -/
inductive Reachable (cfg : RunnerConfig) : RunnerState → Prop where
  | init (strategies : List BaseStrategy) (enabled : List String) (t0 : ℚ) :
      Reachable cfg (initState strategies enabled t0)
  | step {s : RunnerState} (inp : StepInput) :
      Reachable cfg s → s.clock ≤ inp.now →
      Reachable cfg (processStrategy cfg s inp).1

/-! ## The quote feed (`collection/price_collector.py`)

The per-market body of `PriceCollector._collect_prices` is embedded as a
function from the tracked `Market`, the batched refresh result for that
market, and the order-book call result, to the optionally emitted
`PriceUpdate`. -/

/-- `models.Market` (the fields `_collect_prices` reads and writes). -/
structure Market where
  id : String
  condition_id : String
  question : String := ""
  asset : String
  end_time : ℚ
  yes_price : ℚ := 0.50
  no_price : ℚ := 0.50
  volume : ℚ := 0
  liquidity : ℚ := 0
  yes_token_id : Option String := none
  no_token_id : Option String := none
  yes_bid : Option ℚ := none
  yes_ask : Option ℚ := none
  no_bid : Option ℚ := none
  no_ask : Option ℚ := none
deriving DecidableEq, Repr

/-- The dict returned by `CLOBClient.get_best_bid_ask`. -/
structure ClobData where
  yes_bid : Option ℚ := none
  yes_ask : Option ℚ := none
  no_bid : Option ℚ := none
  no_ask : Option ℚ := none
  yes_mid : Option ℚ := none
  no_mid : Option ℚ := none
deriving DecidableEq, Repr

/-- Python truthiness of an optional string (`None` and `""` are falsy). -/
def truthyStr (o : Option String) : Bool :=
  match o with
  | some s => ! decide (s = "")
  | none => false

/-- The per-market body of `_collect_prices`.  `fresh` is the entry of
`fresh_by_id` for this market (`none` when the batched refresh failed or did
not list the market).  `clob` is the result of the order-book call: `none`
models the call raising, which the per-market `except` turns into a skip.
Returns the updated in-memory market and the emitted (saved) `PriceUpdate`,
or `none` when the market is expired or skipped. -/
def collectMarket (market : Market) (now : ℚ) (fresh : Option (ℚ × ℚ))
    (clob : Option ClobData) : Option (Market × PriceUpdate) :=
  if market.end_time ≤ now then none
  else
    let time_remaining := market.end_time - now
    let yp0 := match fresh with
               | some f => f.1
               | none => market.yes_price
    let np0 := match fresh with
               | some f => f.2
               | none => market.no_price
    let market1 := { market with yes_price := yp0, no_price := np0 }
    if truthyStr market1.yes_token_id ∧ truthyStr market1.no_token_id then
      match clob with
      | none => none
      | some d =>
        let market2 := { market1 with
          yes_bid := d.yes_bid, yes_ask := d.yes_ask,
          no_bid := d.no_bid, no_ask := d.no_ask }
        let yp1 := match d.yes_mid with
                   | some m => if m = 0 then yp0 else m
                   | none => yp0
        let np1 :=
          match d.no_mid with
          | some m => if m = 0 then
              (match d.no_ask, d.no_bid with
               | some a, some b => if a = 0 ∨ b = 0 then np0 else (a + b) / 2
               | _, _ => np0)
            else m
          | none =>
              (match d.no_ask, d.no_bid with
               | some a, some b => if a = 0 ∨ b = 0 then np0 else (a + b) / 2
               | _, _ => np0)
        some (market2,
          { market_id := market2.id, condition_id := market2.condition_id,
            asset := market2.asset, yes_price := yp1, no_price := np1,
            yes_bid := d.yes_bid, yes_ask := d.yes_ask,
            no_bid := d.no_bid, no_ask := d.no_ask,
            time_remaining := some time_remaining, timestamp := now })
    else
      some (market1,
        { market_id := market1.id, condition_id := market1.condition_id,
          asset := market1.asset, yes_price := yp0, no_price := np0,
          time_remaining := some time_remaining, timestamp := now })

/-! ## Helper lemmas -/

theorem timeBelow_iff (o : Option ℚ) (c : ℚ) :
    timeBelow o c = true ↔ ∃ t, o = some t ∧ t < c := by
  cases o <;> simp [timeBelow]

theorem check_exit_signal_cases (s : BaseStrategy) (pos : Position) (u : PriceUpdate)
    (a b : ℚ) :
    (s.check_exit pos u a b).1 = ExitSignal.TAKE_PROFIT ∨
    (s.check_exit pos u a b).1 = ExitSignal.RESOLUTION_EXIT ∨
    (s.check_exit pos u a b).1 = ExitSignal.HOLD := by
  unfold BaseStrategy.check_exit
  by_cases hTP : currentPrice pos u ≥ exitTarget s ∧ currentPrice pos u > pos.entry_price <;>
    by_cases hRE : timeBelow u.time_remaining a = true <;>
      simp [hTP, hRE]

theorem trade_close_is_win (t : Trade) (p : ℚ) (r : ExitReason) (trm : Option ℚ)
    (now : ℚ) :
    (t.close p r trm now).is_win =
      some (decide (r = ExitReason.TAKE_PROFIT ∨ r = ExitReason.RESOLUTION_WIN)) := by
  unfold Trade.close
  rfl

theorem truthyOr_some_zero (d : ℚ) : truthyOr (some 0) d = d := by
  simp [truthyOr]

theorem truthyOr_none (d : ℚ) : truthyOr none d = d := rfl

/-- Branch-explicit form of `check_entry` (the `let`s of the source inlined). -/
theorem check_entry_eq (s : BaseStrategy) (u : PriceUpdate) :
    s.check_entry u =
      (if timeBelow u.time_remaining 180 = true then
        { should_enter := false, side := Side.YES, price := 0,
          reason := "Market expiring soon" }
      else if (s.positions.find? (fun q => decide (q.1 = u.condition_id))).isSome = true then
        { should_enter := false, side := Side.YES, price := 0 }
      else if s.direction = "fade" then
        (if s.entry_threshold ≤ truthyOr u.yes_bid u.yes_price ∧
            truthyOr u.yes_bid u.yes_price <
              min 1 (s.entry_threshold +
                (if s.entry_threshold ≥ (0.90 : ℚ) then (0.10 : ℚ) else (0.05 : ℚ))) then
          { should_enter := true, side := Side.NO, price := truthyOr u.no_ask u.no_price,
            confidence := s.get_confidence, reason := "Fade entry" }
        else { should_enter := false, side := Side.YES, price := 0 })
      else
        (if max 0 (s.entry_threshold - (0.05 : ℚ)) < truthyOr u.yes_ask u.yes_price ∧
            truthyOr u.yes_ask u.yes_price ≤ s.entry_threshold then
          { should_enter := true, side := Side.YES, price := truthyOr u.yes_ask u.yes_price,
            confidence := s.get_confidence, reason := "Deep value entry" }
        else { should_enter := false, side := Side.YES, price := 0 })) := rfl

/-- If a non-fade strategy's entry signal fired, it is a YES entry at the
ask-fallback-mid price inside the strict band, and the time gate passed. -/
theorem check_entry_normal_fired (s : BaseStrategy) (u : PriceUpdate)
    (hd : ¬s.direction = "fade") (hf : (s.check_entry u).should_enter = true) :
    (s.check_entry u).side = Side.YES ∧
    (s.check_entry u).price = truthyOr u.yes_ask u.yes_price ∧
    max 0 (s.entry_threshold - (0.05 : ℚ)) < truthyOr u.yes_ask u.yes_price ∧
    truthyOr u.yes_ask u.yes_price ≤ s.entry_threshold ∧
    timeBelow u.time_remaining 180 = false := by
  rw [check_entry_eq] at hf ⊢
  by_cases h1 : timeBelow u.time_remaining 180 = true
  · rw [if_pos h1] at hf
    exact absurd hf (by simp)
  · rw [if_neg h1] at hf ⊢
    by_cases h2 : (s.positions.find? (fun q => decide (q.1 = u.condition_id))).isSome = true
    · rw [if_pos h2] at hf
      exact absurd hf (by simp)
    · rw [if_neg h2, if_neg hd] at hf ⊢
      by_cases hb : max 0 (s.entry_threshold - (0.05 : ℚ)) < truthyOr u.yes_ask u.yes_price ∧
          truthyOr u.yes_ask u.yes_price ≤ s.entry_threshold
      · rw [if_pos hb]
        exact ⟨rfl, rfl, hb.1, hb.2, by simpa using h1⟩
      · rw [if_neg hb] at hf
        exact absurd hf (by simp)

/-- If a fade strategy's entry signal fired, it is a NO entry at the
no-ask-fallback-mid price, triggered by the yes bid inside the strict band,
and the time gate passed. -/
theorem check_entry_fade_fired (s : BaseStrategy) (u : PriceUpdate)
    (hd : s.direction = "fade") (hf : (s.check_entry u).should_enter = true) :
    (s.check_entry u).side = Side.NO ∧
    (s.check_entry u).price = truthyOr u.no_ask u.no_price ∧
    s.entry_threshold ≤ truthyOr u.yes_bid u.yes_price ∧
    truthyOr u.yes_bid u.yes_price <
      min 1 (s.entry_threshold +
        (if s.entry_threshold ≥ (0.90 : ℚ) then (0.10 : ℚ) else (0.05 : ℚ))) ∧
    timeBelow u.time_remaining 180 = false := by
  rw [check_entry_eq] at hf ⊢
  by_cases h1 : timeBelow u.time_remaining 180 = true
  · rw [if_pos h1] at hf
    exact absurd hf (by simp)
  · rw [if_neg h1] at hf ⊢
    by_cases h2 : (s.positions.find? (fun q => decide (q.1 = u.condition_id))).isSome = true
    · rw [if_pos h2] at hf
      exact absurd hf (by simp)
    · rw [if_neg h2, if_pos hd] at hf ⊢
      by_cases hb : s.entry_threshold ≤ truthyOr u.yes_bid u.yes_price ∧
          truthyOr u.yes_bid u.yes_price <
            min 1 (s.entry_threshold +
              (if s.entry_threshold ≥ (0.90 : ℚ) then (0.10 : ℚ) else (0.05 : ℚ)))
      · rw [if_pos hb]
        exact ⟨rfl, rfl, hb.1, hb.2, by simpa using h1⟩
      · rw [if_neg hb] at hf
        exact absurd hf (by simp)

/-! ## Claims -/

/-- C7.  P&L law: for every closed trade, for both YES and NO sides,
`pnlPct = (exitPrice − entryPrice) / entryPrice` and
`pnl = shares · entryPrice · pnlPct`. -/
theorem polyvol_c7_pnl_law (t : Trade) (p : ℚ) (r : ExitReason) (trm : Option ℚ)
    (now : ℚ) :
    (t.close p r trm now).pnl_pct = some ((p - t.entry_price) / t.entry_price) ∧
    (t.close p r trm now).pnl =
      some (t.shares * t.entry_price * ((p - t.entry_price) / t.entry_price)) := by
  unfold Trade.close
  constructor <;> simp [ite_self]

/-- C2.  Win semantics: a trade closed through the decision engine's path
(`check_exit` decision mapped by `reasonMap`, then `Trade.close`) records
`isWin = true` iff the exit reason is `TAKE_PROFIT`; in particular every
`RESOLUTION_EXIT` close is recorded as a loss regardless of the exit and
entry prices. -/
theorem polyvol_c2_win_semantics (s : BaseStrategy) (pos : Position) (u : PriceUpdate)
    (rth tsth now : ℚ) (t : Trade)
    (h : (s.check_exit pos u rth tsth).1 ≠ ExitSignal.HOLD) :
    (t.close (s.check_exit pos u rth tsth).2 (reasonMap (s.check_exit pos u rth tsth).1)
        u.time_remaining now).is_win
      = some (decide (reasonMap (s.check_exit pos u rth tsth).1 = ExitReason.TAKE_PROFIT)) ∧
    (∀ (p : ℚ) (trm : Option ℚ) (t' : Trade) (now' : ℚ),
      (t'.close p ExitReason.RESOLUTION_EXIT trm now').is_win = some false) := by
  constructor
  · rcases check_exit_signal_cases s pos u rth tsth with hc | hc | hc
    · rw [trade_close_is_win, hc]
      rfl
    · rw [trade_close_is_win, hc]
      rfl
    · exact absurd hc h
  · intro p trm t' now'
    rw [trade_close_is_win]
    rfl

/-- C2 witness: at entry 0.09 with the bid at 0.15 and 100 s remaining the
decision is `RESOLUTION_EXIT` (not `HOLD`); although the exit price 0.15 is
above the entry price 0.09, the close is recorded as a loss. -/
theorem polyvol_c2_win_semantics_witness :
    let s : BaseStrategy := { id := "s1", entry_threshold := 1/10, exit_threshold := 1/5 }
    let pos : Position :=
      { strategy_id := "s1", market_id := "m1", condition_id := "c1", asset := "BTC",
        side := Side.YES, entry_price := 9/100, entry_time := 0, shares := 1 }
    let u : PriceUpdate :=
      { market_id := "m1", condition_id := "c1", asset := "BTC", yes_price := 3/20,
        no_price := 17/20, time_remaining := some 100, yes_bid := some (3/20) }
    let t : Trade :=
      { strategy_id := "s1", market_id := "m1", condition_id := "c1", asset := "BTC",
        side := Side.YES, entry_price := 9/100, entry_time := 0, shares := 1 }
    (t.close (s.check_exit pos u 120 600).2 (reasonMap (s.check_exit pos u 120 600).1)
        u.time_remaining 50).is_win
      = some (decide (reasonMap (s.check_exit pos u 120 600).1 = ExitReason.TAKE_PROFIT)) ∧
    (∀ (p : ℚ) (trm : Option ℚ) (t' : Trade) (now' : ℚ),
      (t'.close p ExitReason.RESOLUTION_EXIT trm now').is_win = some false) :=
  polyvol_c2_win_semantics _ _ _ 120 600 50 _ (by with_unfolding_all decide)

/-- C6.  Exit decision order: first match wins — `TAKE_PROFIT` iff
`currentPrice ≥ exitTarget` and `currentPrice > entryPrice`; otherwise
`RESOLUTION_EXIT` iff `timeRemainingSeconds < resolutionThreshold`;
otherwise `HOLD`; and the decision's price is `currentPrice`, the side's bid
with fallback to the side's mid, with `exitTarget` as per direction. -/
theorem polyvol_c6_exit_decision_order (s : BaseStrategy) (pos : Position)
    (u : PriceUpdate) (rth tsth : ℚ) :
    (s.check_exit pos u rth tsth).2 = currentPrice pos u ∧
    currentPrice pos u =
      (if pos.side = Side.YES then truthyOr u.yes_bid u.yes_price
       else truthyOr u.no_bid u.no_price) ∧
    exitTarget s =
      (if s.direction = "fade" then 1 - s.exit_threshold else s.exit_threshold) ∧
    ((s.check_exit pos u rth tsth).1 = ExitSignal.TAKE_PROFIT ↔
      exitTarget s ≤ currentPrice pos u ∧ pos.entry_price < currentPrice pos u) ∧
    ((s.check_exit pos u rth tsth).1 = ExitSignal.RESOLUTION_EXIT ↔
      ¬(exitTarget s ≤ currentPrice pos u ∧ pos.entry_price < currentPrice pos u) ∧
      ∃ tr, u.time_remaining = some tr ∧ tr < rth) ∧
    ((s.check_exit pos u rth tsth).1 = ExitSignal.HOLD ↔
      ¬(exitTarget s ≤ currentPrice pos u ∧ pos.entry_price < currentPrice pos u) ∧
      ¬∃ tr, u.time_remaining = some tr ∧ tr < rth) := by
  have hch : s.check_exit pos u rth tsth =
      (if exitTarget s ≤ currentPrice pos u ∧ pos.entry_price < currentPrice pos u
       then (ExitSignal.TAKE_PROFIT, currentPrice pos u)
       else if timeBelow u.time_remaining rth = true
       then (ExitSignal.RESOLUTION_EXIT, currentPrice pos u)
       else (ExitSignal.HOLD, currentPrice pos u)) := rfl
  rw [hch]
  by_cases hTP : exitTarget s ≤ currentPrice pos u ∧ pos.entry_price < currentPrice pos u
  · rw [if_pos hTP]
    refine ⟨rfl, rfl, rfl, ?_, ?_, ?_⟩ <;> simp [hTP]
  · rw [if_neg hTP]
    by_cases hRE : timeBelow u.time_remaining rth = true
    · rw [if_pos hRE]
      refine ⟨rfl, rfl, rfl, ?_, ?_, ?_⟩
      · simp [hTP]
      · simpa [hTP] using (timeBelow_iff _ _).mp hRE
      · simp [hTP, (timeBelow_iff _ _).mp hRE]
    · rw [if_neg hRE]
      have hnex : ¬∃ tr, u.time_remaining = some tr ∧ tr < rth :=
        fun hx => hRE ((timeBelow_iff _ _).mpr hx)
      refine ⟨rfl, rfl, rfl, ?_, ?_, ?_⟩
      · simp [hTP]
      · simp [hnex]
      · simp [hTP, hnex]

/-- C4.  Entry band and time gate: every fired entry has
`timeRemainingSeconds ≥ 180`; a normal strategy buys YES at
`yesAsk` (fallback `yesPrice`) inside `(entryThreshold − 0.05, entryThreshold]`;
a fade strategy is triggered by `yesBid` (fallback `yesPrice`) inside
`[entryThreshold, entryThreshold + width)` with `width = 0.10` when
`entryThreshold ≥ 0.90` else `0.05`, and buys NO at `noAsk`
(fallback `noPrice`). -/
theorem polyvol_c4_entry_band (s : BaseStrategy) (u : PriceUpdate) (tr : ℚ)
    (ht : u.time_remaining = some tr)
    (hfire : (s.check_entry u).should_enter = true) :
    180 ≤ tr ∧
    (s.direction = "normal" →
      (s.check_entry u).side = Side.YES ∧
      (s.check_entry u).price = truthyOr u.yes_ask u.yes_price ∧
      s.entry_threshold - (0.05 : ℚ) < truthyOr u.yes_ask u.yes_price ∧
      truthyOr u.yes_ask u.yes_price ≤ s.entry_threshold) ∧
    (s.direction = "fade" →
      (s.check_entry u).side = Side.NO ∧
      (s.check_entry u).price = truthyOr u.no_ask u.no_price ∧
      s.entry_threshold ≤ truthyOr u.yes_bid u.yes_price ∧
      truthyOr u.yes_bid u.yes_price <
        s.entry_threshold +
          (if s.entry_threshold ≥ (0.90 : ℚ) then (0.10 : ℚ) else (0.05 : ℚ))) := by
  have h180 : 180 ≤ tr := by
    by_cases hd : s.direction = "fade"
    · have h := (check_entry_fade_fired s u hd hfire).2.2.2.2
      rw [ht] at h
      simpa [timeBelow, not_lt] using h
    · have h := (check_entry_normal_fired s u hd hfire).2.2.2.2
      rw [ht] at h
      simpa [timeBelow, not_lt] using h
  refine ⟨h180, ?_, ?_⟩
  · intro hn
    have hd : ¬s.direction = "fade" := by
      rw [hn]
      decide
    obtain ⟨hside, hprice, hlo, hhi, _⟩ := check_entry_normal_fired s u hd hfire
    exact ⟨hside, hprice, lt_of_le_of_lt (le_max_right _ _) hlo, hhi⟩
  · intro hd
    obtain ⟨hside, hprice, hlo, hhi, _⟩ := check_entry_fade_fired s u hd hfire
    exact ⟨hside, hprice, hlo, lt_of_lt_of_le hhi (min_le_right _ _)⟩

/-- C4 witness: the normal strategy `(entry 0.10, exit 0.20)` fires on
`yesAsk = 0.09` with 600 s remaining; the theorem's conclusions hold there. -/
theorem polyvol_c4_entry_band_witness :
    let s : BaseStrategy := { id := "s1", entry_threshold := 1/10, exit_threshold := 1/5 }
    let u : PriceUpdate :=
      { market_id := "m1", condition_id := "c1", asset := "BTC", yes_price := 2/25,
        no_price := 23/25, time_remaining := some 600, yes_ask := some (9/100) }
    180 ≤ (600 : ℚ) ∧
    (s.direction = "normal" →
      (s.check_entry u).side = Side.YES ∧
      (s.check_entry u).price = truthyOr u.yes_ask u.yes_price ∧
      s.entry_threshold - (0.05 : ℚ) < truthyOr u.yes_ask u.yes_price ∧
      truthyOr u.yes_ask u.yes_price ≤ s.entry_threshold) ∧
    (s.direction = "fade" →
      (s.check_entry u).side = Side.NO ∧
      (s.check_entry u).price = truthyOr u.no_ask u.no_price ∧
      s.entry_threshold ≤ truthyOr u.yes_bid u.yes_price ∧
      truthyOr u.yes_bid u.yes_price <
        s.entry_threshold +
          (if s.entry_threshold ≥ (0.90 : ℚ) then (0.10 : ℚ) else (0.05 : ℚ))) :=
  polyvol_c4_entry_band _ _ 600 rfl (by with_unfolding_all decide)

/-- C10.  Implicit zero-quote fallback: a bid or ask equal to `0.0` behaves
exactly like an absent one (Python truthiness), so the engine then uses the
corresponding mid price as buy price, trigger price, or current sell price —
never the zero quote. -/
theorem polyvol_c10_zero_quote_fallback (s : BaseStrategy) (pos : Position)
    (u : PriceUpdate) (rth tsth : ℚ) :
    (u.yes_ask = some 0 → s.check_entry u = s.check_entry { u with yes_ask := none }) ∧
    (u.yes_bid = some 0 →
      s.check_entry u = s.check_entry { u with yes_bid := none } ∧
      s.check_exit pos u rth tsth = s.check_exit pos { u with yes_bid := none } rth tsth) ∧
    (u.no_ask = some 0 → s.check_entry u = s.check_entry { u with no_ask := none }) ∧
    (u.no_bid = some 0 →
      s.check_exit pos u rth tsth = s.check_exit pos { u with no_bid := none } rth tsth) ∧
    (pos.side = Side.YES → u.yes_bid = some 0 →
      (s.check_exit pos u rth tsth).2 = u.yes_price) ∧
    (pos.side = Side.NO → u.no_bid = some 0 →
      (s.check_exit pos u rth tsth).2 = u.no_price) ∧
    (¬s.direction = "fade" → u.yes_ask = some 0 →
      (s.check_entry u).should_enter = true → (s.check_entry u).price = u.yes_price) ∧
    (s.direction = "fade" → u.no_ask = some 0 →
      (s.check_entry u).should_enter = true → (s.check_entry u).price = u.no_price) := by
  obtain ⟨mid, cid, ast, yp, np, trm, ts, yb, ya, nb, na⟩ := u
  refine ⟨?_, ?_, ?_, ?_, ?_, ?_, ?_, ?_⟩
  · intro h
    subst h
    simp [check_entry_eq, truthyOr]
  · intro h
    subst h
    constructor
    · simp [check_entry_eq, truthyOr]
    · simp [BaseStrategy.check_exit, currentPrice, truthyOr]
  · intro h
    subst h
    simp [check_entry_eq, truthyOr]
  · intro h
    subst h
    simp [BaseStrategy.check_exit, currentPrice, truthyOr]
  · intro hside h
    subst h
    simp [BaseStrategy.check_exit, currentPrice, hside, truthyOr]
    split
    · rfl
    · split <;> rfl
  · intro hside h
    subst h
    simp [BaseStrategy.check_exit, currentPrice, hside, truthyOr]
    split
    · rfl
    · split <;> rfl
  · intro hd h hf
    subst h
    have := (check_entry_normal_fired s _ hd hf).2.1
    rw [this]
    simp [truthyOr]
  · intro hd h hf
    subst h
    have := (check_entry_fade_fired s _ hd hf).2.1
    rw [this]
    simp [truthyOr]

/-- C10 witness: with `yesBid = 0` and `yesPrice = 0.3`, the exit evaluation
of a YES position uses `0.3`, and the zero bid behaves like an absent bid. -/
theorem polyvol_c10_zero_quote_fallback_witness :
    let s : BaseStrategy := { id := "s1", entry_threshold := 1/10, exit_threshold := 1/5 }
    let pos : Position :=
      { strategy_id := "s1", market_id := "m1", condition_id := "c1", asset := "BTC",
        side := Side.YES, entry_price := 9/100, entry_time := 0, shares := 1 }
    let u : PriceUpdate :=
      { market_id := "m1", condition_id := "c1", asset := "BTC", yes_price := 3/10,
        no_price := 7/10, time_remaining := some 600, yes_bid := some 0 }
    (s.check_exit pos u 120 600).2 = u.yes_price ∧
    s.check_exit pos u 120 600 = s.check_exit pos { u with yes_bid := none } 120 600 :=
  ⟨(polyvol_c10_zero_quote_fallback _ _ _ 120 600).2.2.2.2.1 rfl rfl,
   ((polyvol_c10_zero_quote_fallback _ _ _ 120 600).2.1 rfl).2⟩

/-! ## Association-list dictionary lemmas -/

theorem lookupKey_nil {α : Type} (k : String × String) :
    lookupKey ([] : List ((String × String) × α)) k = none := rfl

theorem lookupKey_cons_of_eq {α : Type} (p : (String × String) × α)
    (l : List ((String × String) × α)) (k : String × String) (h : p.1 = k) :
    lookupKey (p :: l) k = some p.2 := by
  simp [lookupKey, List.find?_cons_of_pos, h]

theorem lookupKey_cons_of_ne {α : Type} (p : (String × String) × α)
    (l : List ((String × String) × α)) (k : String × String) (h : ¬p.1 = k) :
    lookupKey (p :: l) k = lookupKey l k := by
  simp only [lookupKey]
  rw [List.find?_cons_of_neg]
  simpa using h

theorem eraseKey_cons_of_eq {α : Type} (p : (String × String) × α)
    (l : List ((String × String) × α)) (k : String × String) (h : p.1 = k) :
    eraseKey (p :: l) k = eraseKey l k := by
  simp only [eraseKey, List.filter_cons]
  simp [h]

theorem eraseKey_cons_of_ne {α : Type} (p : (String × String) × α)
    (l : List ((String × String) × α)) (k : String × String) (h : ¬p.1 = k) :
    eraseKey (p :: l) k = p :: eraseKey l k := by
  simp only [eraseKey, List.filter_cons]
  simp [h]

theorem lookupKey_erase {α : Type} (l : List ((String × String) × α))
    (k : String × String) : lookupKey (eraseKey l k) k = none := by
  induction l with
  | nil => rfl
  | cons p rest ih =>
    by_cases hp : p.1 = k
    · rw [eraseKey_cons_of_eq p rest k hp]
      exact ih
    · rw [eraseKey_cons_of_ne p rest k hp, lookupKey_cons_of_ne p _ k hp]
      exact ih

theorem lookupKey_erase_ne {α : Type} (l : List ((String × String) × α))
    (k k' : String × String) (h : k' ≠ k) :
    lookupKey (eraseKey l k) k' = lookupKey l k' := by
  induction l with
  | nil => rfl
  | cons p rest ih =>
    by_cases hp : p.1 = k
    · rw [eraseKey_cons_of_eq p rest k hp]
      rw [lookupKey_cons_of_ne p rest k' (fun he => h (he.symm.trans hp))]
      exact ih
    · rw [eraseKey_cons_of_ne p rest k hp]
      by_cases hpk : p.1 = k'
      · rw [lookupKey_cons_of_eq p _ k' hpk, lookupKey_cons_of_eq p rest k' hpk]
      · rw [lookupKey_cons_of_ne p _ k' hpk, lookupKey_cons_of_ne p rest k' hpk]
        exact ih

theorem lookupKey_insert {α : Type} (l : List ((String × String) × α))
    (k : String × String) (v : α) : lookupKey (insertKey l k v) k = some v := by
  rw [insertKey, lookupKey_cons_of_eq _ _ _ rfl]

theorem lookupKey_insert_ne {α : Type} (l : List ((String × String) × α))
    (k k' : String × String) (v : α) (h : k' ≠ k) :
    lookupKey (insertKey l k v) k' = lookupKey l k' := by
  rw [insertKey, lookupKey_cons_of_ne _ _ _ (fun he => h he.symm)]
  exact lookupKey_erase_ne l k k' h

theorem lookupKey_mem {α : Type} (l : List ((String × String) × α))
    (k : String × String) (v : α) (h : lookupKey l k = some v) : (k, v) ∈ l := by
  induction l with
  | nil => simp [lookupKey] at h
  | cons p rest ih =>
    by_cases hp : p.1 = k
    · rw [lookupKey_cons_of_eq p rest k hp] at h
      obtain ⟨p1, p2⟩ := p
      simp only [Option.some.injEq] at h
      simp only at hp
      subst hp
      subst h
      exact List.mem_cons_self _ _
    · rw [lookupKey_cons_of_ne p rest k hp] at h
      exact List.mem_cons_of_mem _ (ih h)

/-! ## Structural lemmas about the runner step -/

theorem checkExits_cases (cfg : RunnerConfig) (s : RunnerState) (strat : BaseStrategy)
    (inp : StepInput) :
    checkExits cfg s strat inp = (s, []) ∨
    ∃ trade, lookupKey s.open_trades (strat.id, inp.u.condition_id) = some trade ∧
      (strat.check_exit (exitPosition strat inp trade) inp.u
        cfg.resolution_exit_threshold cfg.time_stop_threshold).1 ≠ ExitSignal.HOLD ∧
      checkExits cfg s strat inp =
        exitFire cfg s strat inp trade
          (strat.check_exit (exitPosition strat inp trade) inp.u
            cfg.resolution_exit_threshold cfg.time_stop_threshold) := by
  rcases hlk : lookupKey s.open_trades (strat.id, inp.u.condition_id) with _ | trade
  · left
    simp [checkExits, hlk]
  · by_cases hdec : (strat.check_exit (exitPosition strat inp trade) inp.u
        cfg.resolution_exit_threshold cfg.time_stop_threshold).1 = ExitSignal.HOLD
    · left
      simp [checkExits, hlk, hdec]
    · right
      exact ⟨trade, rfl, hdec, by simp [checkExits, hlk, hdec]⟩

/-! ## Spending-window lemmas (C5) and entry anatomy -/

def foldSpent : ℚ → List Event → ℚ
  | acc, [] => acc
  | _acc, Event.reset :: rest => foldSpent 0 rest
  | acc, Event.entered _ _ st true _ :: rest => foldSpent (acc + st) rest
  | acc, Event.entered _ _ _ false _ :: rest => foldSpent acc rest
  | acc, Event.closed _ _ _ _ _ :: rest => foldSpent acc rest
  | acc, Event.sellOrder _ :: rest => foldSpent acc rest

theorem foldSpent_append (acc : ℚ) (l1 l2 : List Event) :
    foldSpent acc (l1 ++ l2) = foldSpent (foldSpent acc l1) l2 := by
  induction l1 generalizing acc with
  | nil => rfl
  | cons e rest ih =>
    cases e with
    | reset => simp [foldSpent, ih]
    | entered a b st lv t => cases lv <;> simp [foldSpent, ih]
    | closed a b r p t => simp [foldSpent, ih]
    | sellOrder ok => simp [foldSpent, ih]

theorem entryFire_spent (cfg : RunnerConfig) (s : RunnerState) (strat : BaseStrategy)
    (inp : StepInput) (signal : EntrySignal) :
    (entryFire cfg s strat inp signal).1.spent_in_window =
      foldSpent s.spent_in_window (entryFire cfg s strat inp signal).2 ∧
    ((entryFire cfg s strat inp signal).1.spent_in_window = s.spent_in_window ∨
     (entryFire cfg s strat inp signal).1.spent_in_window ≤ spendingLimit) := by
  unfold entryFire recordEntry
  simp only [decide_eq_true_eq, gt_iff_lt]
  by_cases hr1 : spendingWindowDuration < inp.now - s.spending_window_start
  · simp only [if_pos hr1]
    have hl1 : ¬(spendingLimit < 0 + 1) := by norm_num [spendingLimit]
    simp only [if_neg hl1]
    have hr2 : ¬(spendingWindowDuration < inp.now - inp.now) := by
      norm_num [spendingWindowDuration]
    simp only [if_neg hr2]
    simp only [if_neg hl1]
    by_cases h5 : cfg.live_mode = true ∧ inp.has_token = true
    · simp only [if_pos h5]
      by_cases h6 : inp.buy_succeeds = true
      · simp only [if_pos h6]
        refine ⟨?_, Or.inr (by norm_num [spendingLimit])⟩
        simp [foldSpent]
      · simp only [if_neg h6]
        exact ⟨by simp [foldSpent], Or.inr (by norm_num [spendingLimit])⟩
    · simp only [if_neg h5]
      exact ⟨by simp [foldSpent], Or.inr (by norm_num [spendingLimit])⟩
  · simp only [if_neg hr1]
    by_cases hl1 : spendingLimit < s.spent_in_window + 1
    · simp only [if_pos hl1]
      exact ⟨by simp [foldSpent], Or.inl (by simp)⟩
    · simp only [if_neg hl1]
      by_cases h5 : cfg.live_mode = true ∧ inp.has_token = true
      · simp only [if_pos h5]
        by_cases h6 : inp.buy_succeeds = true
        · simp only [if_pos h6]
          refine ⟨by simp [foldSpent], Or.inr ?_⟩
          simpa using le_of_not_lt hl1
        · simp only [if_neg h6]
          exact ⟨by simp [foldSpent], Or.inl (by simp)⟩
      · simp only [if_neg h5]
        exact ⟨by simp [foldSpent], Or.inl (by simp)⟩

theorem afterCooldown_spent (cfg : RunnerConfig) (s : RunnerState) (strat : BaseStrategy)
    (inp : StepInput) :
    (checkEntriesAfterCooldown cfg s strat inp).1.spent_in_window =
      foldSpent s.spent_in_window (checkEntriesAfterCooldown cfg s strat inp).2 ∧
    ((checkEntriesAfterCooldown cfg s strat inp).1.spent_in_window = s.spent_in_window ∨
     (checkEntriesAfterCooldown cfg s strat inp).1.spent_in_window ≤ spendingLimit) := by
  unfold checkEntriesAfterCooldown
  by_cases hT : Database.has_traded_market s.trades_db strat.id inp.u.condition_id = true
  · rw [if_pos hT]
    exact ⟨rfl, Or.inl rfl⟩
  · rw [if_neg hT]
    by_cases hs : (strat.check_entry inp.u).should_enter = true
    · rw [if_pos hs]
      exact entryFire_spent cfg s strat inp (strat.check_entry inp.u)
    · rw [if_neg hs]
      exact ⟨rfl, Or.inl rfl⟩

theorem checkEntries_cases (cfg : RunnerConfig) (s : RunnerState) (strat : BaseStrategy)
    (inp : StepInput) :
    checkEntries cfg s strat inp = (s, []) ∨
    (lookupKey s.cooldowns (strat.id, inp.u.condition_id) = none ∧
      checkEntries cfg s strat inp = checkEntriesAfterCooldown cfg s strat inp) ∨
    (∃ untilT, lookupKey s.cooldowns (strat.id, inp.u.condition_id) = some untilT ∧
      ¬inp.now < untilT ∧
      checkEntries cfg s strat inp =
        checkEntriesAfterCooldown cfg
          { s with cooldowns := eraseKey s.cooldowns (strat.id, inp.u.condition_id) }
          strat inp) := by
  unfold checkEntries
  by_cases hE : (!s.enabled_strategy_ids.contains strat.id) = true
  · left
    rw [if_pos hE]
  · rw [if_neg hE]
    by_cases hO : (lookupKey s.open_trades (strat.id, inp.u.condition_id)).isSome = true
    · left
      rw [if_pos hO]
    · rw [if_neg hO]
      rcases hc : lookupKey s.cooldowns (strat.id, inp.u.condition_id) with _ | untilT
      · right
        left
        exact ⟨rfl, rfl⟩
      · by_cases ht : inp.now < untilT
        · left
          show (if inp.now < untilT then (s, ([] : List Event))
            else checkEntriesAfterCooldown cfg
              { s with cooldowns := eraseKey s.cooldowns (strat.id, inp.u.condition_id) }
              strat inp) = (s, [])
          rw [if_pos ht]
        · right
          right
          refine ⟨untilT, rfl, ht, ?_⟩
          show (if inp.now < untilT then (s, ([] : List Event))
            else checkEntriesAfterCooldown cfg
              { s with cooldowns := eraseKey s.cooldowns (strat.id, inp.u.condition_id) }
              strat inp) = _
          rw [if_neg ht]

theorem checkEntries_spent (cfg : RunnerConfig) (s : RunnerState) (strat : BaseStrategy)
    (inp : StepInput) :
    (checkEntries cfg s strat inp).1.spent_in_window =
      foldSpent s.spent_in_window (checkEntries cfg s strat inp).2 ∧
    ((checkEntries cfg s strat inp).1.spent_in_window = s.spent_in_window ∨
     (checkEntries cfg s strat inp).1.spent_in_window ≤ spendingLimit) := by
  rcases checkEntries_cases cfg s strat inp with h | ⟨_, h⟩ | ⟨untilT, _, _, h⟩ <;> rw [h]
  · exact ⟨rfl, Or.inl rfl⟩
  · exact afterCooldown_spent cfg s strat inp
  · exact afterCooldown_spent cfg _ strat inp

theorem checkExits_spent_events (cfg : RunnerConfig) (s : RunnerState) (strat : BaseStrategy)
    (inp : StepInput) :
    (checkExits cfg s strat inp).1.spent_in_window = s.spent_in_window ∧
    (∀ acc : ℚ, foldSpent acc (checkExits cfg s strat inp).2 = acc) := by
  rcases checkExits_cases cfg s strat inp with h | ⟨trade, _, _, h⟩ <;> rw [h]
  · exact ⟨rfl, fun acc => rfl⟩
  · refine ⟨rfl, fun acc => ?_⟩
    unfold exitFire
    by_cases hse : cfg.live_mode = true ∧ inp.exit_has_token = true
    · rw [if_pos hse]
      simp [foldSpent]
    · rw [if_neg hse]
      simp [foldSpent]

theorem processStrategy_spent (cfg : RunnerConfig) (s : RunnerState) (inp : StepInput) :
    (processStrategy cfg s inp).1.spent_in_window =
      foldSpent s.spent_in_window (processStrategy cfg s inp).2 ∧
    ((processStrategy cfg s inp).1.spent_in_window = s.spent_in_window ∨
     (processStrategy cfg s inp).1.spent_in_window ≤ spendingLimit) := by
  rcases hf : s.strategies.find? (fun st => decide (st.id = inp.strategy_id)) with _ | strat
  · simp only [processStrategy, hf]
    exact ⟨rfl, Or.inl (by simp)⟩
  · simp only [processStrategy, hf]
    obtain ⟨he1, he3⟩ := checkExits_spent_events cfg s strat inp
    obtain ⟨hn1, hn2⟩ := checkEntries_spent cfg (checkExits cfg s strat inp).1
      (match (checkExits cfg s strat inp).1.strategies.find?
          (fun st => decide (st.id = inp.strategy_id)) with
        | some st => st
        | none => strat) inp
    constructor
    · rw [foldSpent_append, he3, hn1, he1]
    · rw [he1] at hn2
      exact hn2

theorem afterCooldown_cases (cfg : RunnerConfig) (s : RunnerState) (strat : BaseStrategy)
    (inp : StepInput) :
    (∃ ws sp ev,
      checkEntriesAfterCooldown cfg s strat inp =
        ({ s with spending_window_start := ws, spent_in_window := sp }, ev) ∧
      ∀ e ∈ ev, e = Event.reset) ∨
    (∃ ws sp stgs tr ev,
      Database.has_traded_market s.trades_db strat.id inp.u.condition_id = false ∧
      tr.strategy_id = strat.id ∧ tr.condition_id = inp.u.condition_id ∧
      tr.id = some s.trades_db.length ∧ tr.status = TradeStatus.OPEN ∧
      checkEntriesAfterCooldown cfg s strat inp =
        ({ s with
            spending_window_start := ws
            spent_in_window := sp
            trades_db := s.trades_db ++ [tr]
            open_trades := insertKey s.open_trades (strat.id, inp.u.condition_id) tr
            strategies := stgs }, ev) ∧
      ∀ e ∈ ev, e = Event.reset ∨
        ∃ st b, e = Event.entered strat.id inp.u.condition_id st b inp.now) := by
  unfold checkEntriesAfterCooldown entryFire recordEntry
  simp only [decide_eq_true_eq, gt_iff_lt]
  by_cases hT : Database.has_traded_market s.trades_db strat.id inp.u.condition_id = true
  · rw [if_pos hT]
    left
    exact ⟨s.spending_window_start, s.spent_in_window, [], rfl, by simp⟩
  · rw [if_neg hT]
    have hT' : Database.has_traded_market s.trades_db strat.id inp.u.condition_id = false :=
      Bool.not_eq_true _ ▸ hT
    by_cases hs : (strat.check_entry inp.u).should_enter = true
    · rw [if_pos hs]
      by_cases hr1 : spendingWindowDuration < inp.now - s.spending_window_start
      · simp only [if_pos hr1]
        have hl1 : ¬(spendingLimit < 0 + 1) := by norm_num [spendingLimit]
        simp only [if_neg hl1]
        have hr2 : ¬(spendingWindowDuration < inp.now - inp.now) := by
          norm_num [spendingWindowDuration]
        simp only [if_neg hr2]
        simp only [if_neg hl1]
        by_cases h5 : cfg.live_mode = true ∧ inp.has_token = true
        · rw [if_pos h5]
          by_cases h6 : inp.buy_succeeds = true
          · rw [if_pos h6]
            right
            refine ⟨inp.now, 0 + 1, _, _, _, hT', rfl, rfl, rfl, rfl, rfl, ?_⟩
            intro e he
            simp only [List.mem_append, List.mem_singleton] at he
            rcases he with (he | he) | he
            · exact Or.inl he
            · exact absurd he (List.not_mem_nil e)
            · exact Or.inr ⟨1, !false, he⟩
          · rw [if_neg h6]
            left
            exact ⟨inp.now, 0, [Event.reset] ++ [], rfl, by simp⟩
        · rw [if_neg h5]
          right
          refine ⟨inp.now, 0, _, _, _, hT', rfl, rfl, rfl, rfl, rfl, ?_⟩
          intro e he
          simp only [List.mem_append, List.mem_singleton] at he
          rcases he with (he | he) | he
          · exact Or.inl he
          · exact absurd he (List.not_mem_nil e)
          · exact Or.inr ⟨1, !true, he⟩
      · simp only [if_neg hr1]
        by_cases hl1 : spendingLimit < s.spent_in_window + 1
        · rw [if_pos hl1]
          left
          exact ⟨s.spending_window_start, s.spent_in_window, [], rfl, by simp⟩
        · simp only [if_neg hl1]
          by_cases h5 : cfg.live_mode = true ∧ inp.has_token = true
          · rw [if_pos h5]
            by_cases h6 : inp.buy_succeeds = true
            · rw [if_pos h6]
              right
              refine ⟨s.spending_window_start, s.spent_in_window + 1, _, _, _,
                hT', rfl, rfl, rfl, rfl, rfl, ?_⟩
              intro e he
              simp only [List.nil_append, List.mem_singleton] at he
              exact Or.inr ⟨1, !false, he⟩
            · rw [if_neg h6]
              left
              exact ⟨s.spending_window_start, s.spent_in_window, [] ++ [], rfl, by simp⟩
          · rw [if_neg h5]
            right
            refine ⟨s.spending_window_start, s.spent_in_window, _, _, _,
              hT', rfl, rfl, rfl, rfl, rfl, ?_⟩
            intro e he
            simp only [List.nil_append, List.mem_singleton] at he
            exact Or.inr ⟨1, !true, he⟩
    · rw [if_neg hs]
      left
      exact ⟨s.spending_window_start, s.spent_in_window, [], rfl, by simp⟩

theorem runSteps_spent (cfg : RunnerConfig) (inputs : List StepInput) (s : RunnerState) :
    (runSteps cfg s inputs).1.spent_in_window =
      foldSpent s.spent_in_window (runSteps cfg s inputs).2 ∧
    (s.spent_in_window ≤ spendingLimit →
      (runSteps cfg s inputs).1.spent_in_window ≤ spendingLimit) := by
  induction inputs generalizing s with
  | nil => exact ⟨rfl, id⟩
  | cons i rest ih =>
    obtain ⟨h1, h2⟩ := processStrategy_spent cfg s i
    obtain ⟨ih1, ih2⟩ := ih (processStrategy cfg s i).1
    constructor
    · show (runSteps cfg (processStrategy cfg s i).1 rest).1.spent_in_window =
        foldSpent s.spent_in_window
          ((processStrategy cfg s i).2 ++ (runSteps cfg (processStrategy cfg s i).1 rest).2)
      rw [foldSpent_append, ← h1, ih1]
    · intro hb
      show (runSteps cfg (processStrategy cfg s i).1 rest).1.spent_in_window ≤ spendingLimit
      refine ih2 ?_
      rcases h2 with h2 | h2
      · rw [h2]
        exact hb
      · exact h2

/-- Sum of the stakes of successful live entries since the last window
reset, replayed from the event log. -/
def liveStakesSinceReset (l : List Event) : ℚ := foldSpent 0 l

/-- Sum of the stakes of all recorded entries (paper and live). -/
def entryStakes : List Event → ℚ
  | [] => 0
  | Event.entered _ _ st _ _ :: rest => st + entryStakes rest
  | _ :: rest => entryStakes rest

/-- Whether an event is a recorded entry. -/
def isEntered : Event → Bool
  | Event.entered _ _ _ _ _ => true
  | _ => false

/-- C5 (amended).  The budget gate admits an entry iff
`spentSoFar + stake ≤ spendCap`, and the rolling window resets as described,
but the stake is added to `spentSoFar` only when a live order is successfully
placed; hence across any run from start, `spentSoFar` always equals the sum
of stakes of successful live entries since the last window reset, and that
sum never exceeds `spendCap` ($5).  (Instantiating `inputs` at every prefix
of a run bounds every window, not just the last.) -/
theorem polyvol_c5_budget_gate_live (cfg : RunnerConfig) (strategies : List BaseStrategy)
    (enabled : List String) (t0 : ℚ) (inputs : List StepInput) :
    (runSteps cfg (initState strategies enabled t0) inputs).1.spent_in_window =
      liveStakesSinceReset (runSteps cfg (initState strategies enabled t0) inputs).2 ∧
    liveStakesSinceReset (runSteps cfg (initState strategies enabled t0) inputs).2 ≤
      spendingLimit := by
  obtain ⟨h1, h2⟩ := runSteps_spent cfg inputs (initState strategies enabled t0)
  have h0 : (initState strategies enabled t0).spent_in_window = 0 := rfl
  have he : (runSteps cfg (initState strategies enabled t0) inputs).1.spent_in_window =
      liveStakesSinceReset (runSteps cfg (initState strategies enabled t0) inputs).2 := by
    rw [h1, h0, liveStakesSinceReset]
  refine ⟨he, ?_⟩
  rw [← he]
  refine h2 ?_
  rw [h0]
  norm_num [spendingLimit]

/-- C5 counterexample.  In paper mode (the shipped default), six $1 entries
by one strategy in six markets are all admitted at the same instant — one
window, no reset — for a total stake of $6 > $5, while `spentSoFar` remains
0: admission does not add the stake, so the claimed bound fails for paper
entries. -/
theorem polyvol_c5_budget_gate_counterexample :
    let strat : BaseStrategy := { id := "s1", entry_threshold := 1/10, exit_threshold := 1/5 }
    let cfg : RunnerConfig := { live_mode := false }
    let mkInp : String → StepInput := fun cid =>
      { strategy_id := "s1",
        u := { market_id := "m1", condition_id := cid, asset := "BTC", yes_price := 2/25,
               no_price := 23/25, time_remaining := some 600, yes_ask := some (9/100) },
        now := 0, has_token := false, buy_succeeds := false, exit_has_token := false,
        sell_succeeds := false }
    let r := runSteps cfg (initState [strat] ["s1"] 0)
      [mkInp "c1", mkInp "c2", mkInp "c3", mkInp "c4", mkInp "c5", mkInp "c6"]
    (r.2.filter isEntered).length = 6 ∧
    entryStakes r.2 = 6 ∧
    ¬entryStakes r.2 ≤ spendingLimit ∧
    r.1.spent_in_window = 0 ∧
    Event.reset ∉ r.2 := by
  with_unfolding_all decide

/-! ## Store/cache coupling: the one-shot invariant (C1) -/

/-- Number of rows in the trades table with the given
`(strategy_id, condition_id)` pair. -/
def countKey (sid cid : String) (db : List Trade) : ℕ :=
  (db.filter (fun t => decide (t.strategy_id = sid) && decide (t.condition_id = cid))).length

theorem countKey_append (sid cid : String) (l1 l2 : List Trade) :
    countKey sid cid (l1 ++ l2) = countKey sid cid l1 + countKey sid cid l2 := by
  simp [countKey, List.filter_append]

theorem has_traded_eq_false_iff (db : List Trade) (sid cid : String) :
    Database.has_traded_market db sid cid = false ↔ countKey sid cid db = 0 := by
  rw [countKey, List.length_eq_zero, List.filter_eq_nil_iff]
  rw [Database.has_traded_market, List.any_eq_false]

theorem countKey_map_eq (f : Trade → Trade) (db : List Trade)
    (hf : ∀ r ∈ db, (f r).strategy_id = r.strategy_id ∧ (f r).condition_id = r.condition_id)
    (sid cid : String) : countKey sid cid (db.map f) = countKey sid cid db := by
  induction db with
  | nil => rfl
  | cons a l ih =>
    have ha := hf a (List.mem_cons_self a l)
    have hpred : (decide ((f a).strategy_id = sid) && decide ((f a).condition_id = cid)) =
        (decide (a.strategy_id = sid) && decide (a.condition_id = cid)) := by
      rw [ha.1, ha.2]
    have ihl := ih (fun r hr => hf r (List.mem_cons_of_mem a hr))
    simp only [countKey, List.map_cons, List.filter_cons, hpred] at *
    cases hc : (decide (a.strategy_id = sid) && decide (a.condition_id = cid)) <;>
      simp [hc, ihl]

theorem trade_close_id (t : Trade) (p : ℚ) (r : ExitReason) (trm : Option ℚ) (now : ℚ) :
    (t.close p r trm now).id = t.id := rfl

theorem trade_close_strategy_id (t : Trade) (p : ℚ) (r : ExitReason) (trm : Option ℚ)
    (now : ℚ) : (t.close p r trm now).strategy_id = t.strategy_id := rfl

theorem trade_close_condition_id (t : Trade) (p : ℚ) (r : ExitReason) (trm : Option ℚ)
    (now : ℚ) : (t.close p r trm now).condition_id = t.condition_id := rfl

theorem trade_close_status (t : Trade) (p : ℚ) (r : ExitReason) (trm : Option ℚ)
    (now : ℚ) : (t.close p r trm now).status = TradeStatus.CLOSED := rfl

theorem trade_close_exit_price (t : Trade) (p : ℚ) (r : ExitReason) (trm : Option ℚ)
    (now : ℚ) : (t.close p r trm now).exit_price = some p := rfl

theorem trade_close_exit_reason (t : Trade) (p : ℚ) (r : ExitReason) (trm : Option ℚ)
    (now : ℚ) : (t.close p r trm now).exit_reason = some r := rfl

/-- The Store/cache coupling invariant: row ids are their positions, every
cached open trade points at a row with its own key, and no key has more
than one row. -/
structure DBInv (s : RunnerState) : Prop where
  ids : ∀ (j : ℕ) (h : j < s.trades_db.length), (s.trades_db[j]).id = some j
  open_link : ∀ k tr, (k, tr) ∈ s.open_trades →
    tr.strategy_id = k.1 ∧ tr.condition_id = k.2 ∧
    ∃ (j : ℕ) (h : j < s.trades_db.length), tr.id = some j ∧
      (s.trades_db[j]).strategy_id = k.1 ∧ (s.trades_db[j]).condition_id = k.2
  oneshot : ∀ sid cid, countKey sid cid s.trades_db ≤ 1

theorem dbUpdate_facts (db : List Trade) (closed : Trade) (j0 : ℕ)
    (hj0 : j0 < db.length) (hcid : closed.id = some j0)
    (hkey1 : (db[j0]).strategy_id = closed.strategy_id)
    (hkey2 : (db[j0]).condition_id = closed.condition_id)
    (ids : ∀ (j : ℕ) (h : j < db.length), (db[j]).id = some j) :
    (∀ (j : ℕ) (h : j < db.length)
        (h2 : j < (db.map (fun r => if r.id = closed.id then closed else r)).length),
      (db.map (fun r => if r.id = closed.id then closed else r))[j] =
        if j = j0 then closed else db[j]) ∧
    (∀ sid cid,
      countKey sid cid (db.map (fun r => if r.id = closed.id then closed else r)) =
        countKey sid cid db) := by
  have hmain : ∀ (j : ℕ) (h : j < db.length)
      (h2 : j < (db.map (fun r => if r.id = closed.id then closed else r)).length),
      (db.map (fun r => if r.id = closed.id then closed else r))[j] =
        if j = j0 then closed else db[j] := by
    intro j h h2
    rw [List.getElem_map]
    by_cases hj : j = j0
    · rw [if_pos hj]
      have hcond : (db[j]).id = closed.id := by
        rw [ids j h, hcid, hj]
      rw [if_pos hcond]
    · rw [if_neg hj]
      have hcond : ¬(db[j]).id = closed.id := by
        rw [ids j h, hcid]
        simp only [Option.some.injEq]
        exact hj
      rw [if_neg hcond]
  refine ⟨hmain, ?_⟩
  intro sid cid
  refine countKey_map_eq _ db ?_ sid cid
  intro r hr
  by_cases hrid : r.id = closed.id
  · rw [if_pos hrid]
    obtain ⟨i, hi, hri⟩ := List.mem_iff_getElem.mp hr
    have : r.id = some i := by
      rw [← hri]
      exact ids i hi
    rw [this, hcid, Option.some.injEq] at hrid
    subst hrid
    subst hri
    exact ⟨hkey1.symm, hkey2.symm⟩
  · rw [if_neg hrid]
    exact ⟨rfl, rfl⟩

theorem countKey_singleton_le (sid cid : String) (tr : Trade) :
    countKey sid cid [tr] ≤ 1 := by
  simp only [countKey, List.filter]
  cases decide (tr.strategy_id = sid) && decide (tr.condition_id = cid) <;> simp

theorem dbinv_exitFire (cfg : RunnerConfig) (s : RunnerState) (strat : BaseStrategy)
    (inp : StepInput) (trade : Trade) (dec : ExitSignal × ℚ) (h : DBInv s)
    (hlk : lookupKey s.open_trades (strat.id, inp.u.condition_id) = some trade) :
    DBInv (exitFire cfg s strat inp trade dec).1 := by
  have hmem := lookupKey_mem _ _ _ hlk
  obtain ⟨htsid, htcid, j0, hj0, htid, hdb1, hdb2⟩ :=
    h.open_link (strat.id, inp.u.condition_id) trade hmem
  have hcid : (trade.close dec.2 (reasonMap dec.1) inp.u.time_remaining inp.now).id =
      some j0 := by
    rw [trade_close_id]
    exact htid
  have hkey1 : (s.trades_db[j0]).strategy_id =
      (trade.close dec.2 (reasonMap dec.1) inp.u.time_remaining inp.now).strategy_id := by
    rw [trade_close_strategy_id]
    exact hdb1.trans htsid.symm
  have hkey2 : (s.trades_db[j0]).condition_id =
      (trade.close dec.2 (reasonMap dec.1) inp.u.time_remaining inp.now).condition_id := by
    rw [trade_close_condition_id]
    exact hdb2.trans htcid.symm
  obtain ⟨hmain, hcount⟩ := dbUpdate_facts s.trades_db
    (trade.close dec.2 (reasonMap dec.1) inp.u.time_remaining inp.now) j0 hj0 hcid
    hkey1 hkey2 h.ids
  have hdbeq : (exitFire cfg s strat inp trade dec).1.trades_db =
      s.trades_db.map (fun r =>
        if r.id = (trade.close dec.2 (reasonMap dec.1) inp.u.time_remaining inp.now).id
        then trade.close dec.2 (reasonMap dec.1) inp.u.time_remaining inp.now else r) := rfl
  have hopeq : (exitFire cfg s strat inp trade dec).1.open_trades =
      eraseKey s.open_trades (strat.id, inp.u.condition_id) := rfl
  constructor
  · intro j hj
    have hj' : j < s.trades_db.length := by
      rw [hdbeq] at hj
      simpa using hj
    simp only [hdbeq]
    rw [hmain j hj' (by simpa using hj')]
    by_cases hjj : j = j0
    · rw [if_pos hjj, hcid, hjj]
    · rw [if_neg hjj]
      exact h.ids j hj'
  · intro k tr hmem'
    rw [hopeq] at hmem'
    have hmem2 : (k, tr) ∈ s.open_trades := List.mem_of_mem_filter hmem'
    have hkne : ¬k = (strat.id, inp.u.condition_id) := by
      have := List.of_mem_filter hmem'
      simp only [Bool.not_eq_eq_eq_not, Bool.not_true, decide_eq_false_iff_not] at this
      exact this
    obtain ⟨h1, h2, j2, hj2, hid2, hk1, hk2⟩ := h.open_link k tr hmem2
    have hj2' : j2 < (exitFire cfg s strat inp trade dec).1.trades_db.length := by
      rw [hdbeq]
      simpa using hj2
    have hne : ¬j2 = j0 := by
      intro hcontra
      apply hkne
      subst hcontra
      have e1 : k.1 = (strat.id, inp.u.condition_id).1 := by
        rw [← hk1, hdb1]
      have e2 : k.2 = (strat.id, inp.u.condition_id).2 := by
        rw [← hk2, hdb2]
      exact Prod.ext e1 e2
    refine ⟨h1, h2, j2, hj2', hid2, ?_, ?_⟩
    · simp only [hdbeq]
      rw [hmain j2 hj2 (by simpa using hj2), if_neg hne]
      exact hk1
    · simp only [hdbeq]
      rw [hmain j2 hj2 (by simpa using hj2), if_neg hne]
      exact hk2
  · intro sid cid
    simp only [hdbeq]
    rw [hcount sid cid]
    exact h.oneshot sid cid

theorem dbinv_checkExits (cfg : RunnerConfig) (s : RunnerState) (strat : BaseStrategy)
    (inp : StepInput) (h : DBInv s) : DBInv (checkExits cfg s strat inp).1 := by
  rcases checkExits_cases cfg s strat inp with heq | ⟨trade, hlk, _, heq⟩ <;> rw [heq]
  · exact h
  · exact dbinv_exitFire cfg s strat inp trade _ h hlk

theorem dbinv_afterCooldown (cfg : RunnerConfig) (s : RunnerState) (strat : BaseStrategy)
    (inp : StepInput) (h : DBInv s) :
    DBInv (checkEntriesAfterCooldown cfg s strat inp).1 := by
  rcases afterCooldown_cases cfg s strat inp with
    ⟨ws, sp, ev, heq, _⟩ | ⟨ws, sp, stgs, tr, ev, hT, htr1, htr2, htr3, _, heq, _⟩ <;> rw [heq]
  · exact ⟨h.ids, h.open_link, h.oneshot⟩
  · have hT0 : countKey strat.id inp.u.condition_id s.trades_db = 0 :=
      (has_traded_eq_false_iff s.trades_db strat.id inp.u.condition_id).mp hT
    constructor
    · intro j hj
      have hj2 : j < s.trades_db.length + 1 := by
        simpa using hj
    -- placeholder
      rcases Nat.lt_succ_iff_lt_or_eq.mp hj2 with hlt | heqj
      · have hb : j < (s.trades_db ++ [tr]).length := by simp; omega
        show ((s.trades_db ++ [tr])[j]).id = some j
        rw [List.getElem_append_left hlt]
        exact h.ids j hlt
      · have hb : j < (s.trades_db ++ [tr]).length := by simp; omega
        show ((s.trades_db ++ [tr])[j]).id = some j
        subst heqj
        rw [List.getElem_append_right (Nat.le_refl _)]
        simpa using htr3
    · intro k tr2 hmem
      have hmem2 : (k, tr2) ∈ (k, tr2) :: [] ∨ True := Or.inr trivial
      rcases List.mem_cons.mp hmem with heq2 | hmem3
      · have hk : k = (strat.id, inp.u.condition_id) := congrArg Prod.fst heq2
        have htr : tr2 = tr := congrArg Prod.snd heq2
        refine ⟨by rw [htr, htr1, hk], by rw [htr, htr2, hk], s.trades_db.length, ?_, ?_, ?_, ?_⟩
        · simp
        · rw [htr]
          exact htr3
        · have hb : s.trades_db.length < (s.trades_db ++ [tr]).length := by simp
          show ((s.trades_db ++ [tr])[s.trades_db.length]).strategy_id = k.1
          rw [List.getElem_append_right (Nat.le_refl _)]
          simp [htr1, hk]
        · have hb : s.trades_db.length < (s.trades_db ++ [tr]).length := by simp
          show ((s.trades_db ++ [tr])[s.trades_db.length]).condition_id = k.2
          rw [List.getElem_append_right (Nat.le_refl _)]
          simp [htr2, hk]
      · have hmem4 : (k, tr2) ∈ s.open_trades := List.mem_of_mem_filter hmem3
        obtain ⟨h1, h2, j2, hj2, hid2, hk1, hk2⟩ := h.open_link k tr2 hmem4
        refine ⟨h1, h2, j2, by simp; omega, hid2, ?_, ?_⟩
        · have hb : j2 < (s.trades_db ++ [tr]).length := by simp; omega
          show ((s.trades_db ++ [tr])[j2]).strategy_id = k.1
          rw [List.getElem_append_left hj2]
          exact hk1
        · have hb : j2 < (s.trades_db ++ [tr]).length := by simp; omega
          show ((s.trades_db ++ [tr])[j2]).condition_id = k.2
          rw [List.getElem_append_left hj2]
          exact hk2
    · intro sid cid
      show countKey sid cid (s.trades_db ++ [tr]) ≤ 1
      rw [countKey_append]
      by_cases hk : sid = strat.id ∧ cid = inp.u.condition_id
      · have h0 : countKey sid cid s.trades_db = 0 := by
          rw [hk.1, hk.2]
          exact hT0
        rw [h0]
        simpa using countKey_singleton_le sid cid tr
      · have h1 : countKey sid cid [tr] = 0 := by
          simp only [countKey, List.filter]
          rcases not_and_or.mp hk with hne | hne
          · have : decide (tr.strategy_id = sid) = false := by
              rw [htr1]
              exact decide_eq_false (fun he => hne he.symm)
            rw [this]
            simp
          · have : decide (tr.condition_id = cid) = false := by
              rw [htr2]
              exact decide_eq_false (fun he => hne he.symm)
            rw [this]
            simp [Bool.and_comm]
        rw [h1]
        simpa using h.oneshot sid cid

theorem dbinv_checkEntries (cfg : RunnerConfig) (s : RunnerState) (strat : BaseStrategy)
    (inp : StepInput) (h : DBInv s) : DBInv (checkEntries cfg s strat inp).1 := by
  rcases checkEntries_cases cfg s strat inp with heq | ⟨_, heq⟩ | ⟨untilT, _, _, heq⟩ <;>
    rw [heq]
  · exact h
  · exact dbinv_afterCooldown cfg s strat inp h
  · exact dbinv_afterCooldown cfg _ strat inp ⟨h.ids, h.open_link, h.oneshot⟩

theorem dbinv_processStrategy (cfg : RunnerConfig) (s : RunnerState) (inp : StepInput)
    (h : DBInv s) : DBInv (processStrategy cfg s inp).1 := by
  rcases hf : s.strategies.find? (fun st => decide (st.id = inp.strategy_id)) with _ | strat
  · simp only [processStrategy, hf]
    exact ⟨h.ids, h.open_link, h.oneshot⟩
  · simp only [processStrategy, hf]
    have h1 := dbinv_checkExits cfg s strat inp h
    have h2 := dbinv_checkEntries cfg (checkExits cfg s strat inp).1
      (match (checkExits cfg s strat inp).1.strategies.find?
          (fun st => decide (st.id = inp.strategy_id)) with
        | some st => st
        | none => strat) inp h1
    exact ⟨h2.ids, h2.open_link, h2.oneshot⟩

theorem dbinv_reachable (cfg : RunnerConfig) (s : RunnerState) (h : Reachable cfg s) :
    DBInv s := by
  induction h with
  | init strategies enabled t0 =>
    constructor
    · intro j hj
      simp [initState] at hj
    · intro k tr hmem
      simp [initState] at hmem
    · intro sid cid
      simp [initState, countKey]
  | step inp hr hclk ih => exact dbinv_processStrategy _ _ inp ih

/-- C1.  One-shot-per-market: in every reachable runner state, the trades
table holds at most one row (open or closed) per
`(strategyId, conditionId)` pair, because the entry path is gated on the
Store query `has_traded_market` (spec-modelled `everTraded`). -/
theorem polyvol_c1_one_shot (cfg : RunnerConfig) (s : RunnerState)
    (h : Reachable cfg s) (sid cid : String) : countKey sid cid s.trades_db ≤ 1 :=
  (dbinv_reachable cfg s h).oneshot sid cid

/-- C1 witness: after one entry step from a fresh start the table holds one
row for the pair, and the bound holds. -/
theorem polyvol_c1_one_shot_witness :
    let strat : BaseStrategy := { id := "s1", entry_threshold := 1/10, exit_threshold := 1/5 }
    let cfg : RunnerConfig := { live_mode := false }
    let inp : StepInput :=
      { strategy_id := "s1",
        u := { market_id := "m1", condition_id := "c1", asset := "BTC", yes_price := 2/25,
               no_price := 23/25, time_remaining := some 600, yes_ask := some (9/100) },
        now := 0, has_token := false, buy_succeeds := false, exit_has_token := false,
        sell_succeeds := false }
    countKey "s1" "c1" (processStrategy cfg (initState [strat] ["s1"] 0) inp).1.trades_db ≤ 1 ∧
    countKey "s1" "c1" (processStrategy cfg (initState [strat] ["s1"] 0) inp).1.trades_db = 1 :=
  ⟨polyvol_c1_one_shot _ _
      (Reachable.step _ (Reachable.init _ _ _) (le_refl 0)) "s1" "c1",
   by with_unfolding_all decide⟩

/-! ## Cooldown gate: temporal lemmas (C8) -/

/-- The wall-clock times of a step sequence are non-decreasing starting
from a given time (`datetime.utcnow` is monotone). -/
def sortedTimes : ℚ → List StepInput → Prop
  | _, [] => True
  | c, i :: rest => c ≤ i.now ∧ sortedTimes i.now rest

/-- Every armed cooldown expires within `cooldownDuration` of the given
time (it was armed at some past instant). -/
def cooldownsBounded (c : List ((String × String) × ℚ)) (T : ℚ) : Prop :=
  ∀ k u, lookupKey c k = some u → u ≤ T + cooldownDuration

theorem exitFire_cooldowns (cfg : RunnerConfig) (s : RunnerState) (strat : BaseStrategy)
    (inp : StepInput) (trade : Trade) (dec : ExitSignal × ℚ) :
    (exitFire cfg s strat inp trade dec).1.cooldowns = s.cooldowns ∨
    (exitFire cfg s strat inp trade dec).1.cooldowns =
      insertKey s.cooldowns (strat.id, inp.u.condition_id) (inp.now + cooldownDuration) := by
  unfold exitFire
  by_cases hr : reasonMap dec.1 = ExitReason.RESOLUTION_EXIT ∨
      reasonMap dec.1 = ExitReason.TIME_STOP
  · right
    simp only [if_pos hr]
  · left
    simp only [if_neg hr]

theorem checkExits_cooldowns (cfg : RunnerConfig) (s : RunnerState) (strat : BaseStrategy)
    (inp : StepInput) :
    (checkExits cfg s strat inp).1.cooldowns = s.cooldowns ∨
    (checkExits cfg s strat inp).1.cooldowns =
      insertKey s.cooldowns (strat.id, inp.u.condition_id) (inp.now + cooldownDuration) := by
  rcases checkExits_cases cfg s strat inp with heq | ⟨trade, _, _, heq⟩ <;> rw [heq]
  · exact Or.inl rfl
  · exact exitFire_cooldowns cfg s strat inp trade _

theorem afterCooldown_cooldowns (cfg : RunnerConfig) (s : RunnerState)
    (strat : BaseStrategy) (inp : StepInput) :
    (checkEntriesAfterCooldown cfg s strat inp).1.cooldowns = s.cooldowns := by
  rcases afterCooldown_cases cfg s strat inp with
    ⟨ws, sp, ev, heq, _⟩ | ⟨ws, sp, stgs, tr, ev, _, _, _, _, _, heq, _⟩ <;> rw [heq]

theorem checkEntries_cooldowns (cfg : RunnerConfig) (s : RunnerState)
    (strat : BaseStrategy) (inp : StepInput) :
    (checkEntries cfg s strat inp).1.cooldowns = s.cooldowns ∨
    (∃ untilT, lookupKey s.cooldowns (strat.id, inp.u.condition_id) = some untilT ∧
      ¬inp.now < untilT ∧
      (checkEntries cfg s strat inp).1.cooldowns =
        eraseKey s.cooldowns (strat.id, inp.u.condition_id)) := by
  rcases checkEntries_cases cfg s strat inp with heq | ⟨_, heq⟩ | ⟨untilT, hu, ht, heq⟩ <;>
    rw [heq]
  · exact Or.inl rfl
  · exact Or.inl (afterCooldown_cooldowns cfg s strat inp)
  · right
    exact ⟨untilT, hu, ht, afterCooldown_cooldowns cfg _ strat inp⟩

theorem exitFire_events (cfg : RunnerConfig) (s : RunnerState) (strat : BaseStrategy)
    (inp : StepInput) (trade : Trade) (dec : ExitSignal × ℚ) :
    ∀ e ∈ (exitFire cfg s strat inp trade dec).2,
      (∃ ok, e = Event.sellOrder ok) ∨
      (e = Event.closed strat.id inp.u.condition_id (reasonMap dec.1) dec.2 inp.now ∧
        ((reasonMap dec.1 = ExitReason.RESOLUTION_EXIT ∨
          reasonMap dec.1 = ExitReason.TIME_STOP) →
          (exitFire cfg s strat inp trade dec).1.cooldowns =
            insertKey s.cooldowns (strat.id, inp.u.condition_id)
              (inp.now + cooldownDuration))) := by
  intro e he
  by_cases hr : reasonMap dec.1 = ExitReason.RESOLUTION_EXIT ∨
      reasonMap dec.1 = ExitReason.TIME_STOP
  · have hev : (exitFire cfg s strat inp trade dec).2 =
        (if cfg.live_mode = true ∧ inp.exit_has_token = true
          then [Event.sellOrder inp.sell_succeeds] else []) ++
        [Event.closed strat.id inp.u.condition_id (reasonMap dec.1) dec.2 inp.now] := rfl
    rw [hev] at he
    rcases List.mem_append.mp he with h1 | h2
    · by_cases hl : cfg.live_mode = true ∧ inp.exit_has_token = true
      · rw [if_pos hl, List.mem_singleton] at h1
        exact Or.inl ⟨inp.sell_succeeds, h1⟩
      · rw [if_neg hl] at h1
        exact absurd h1 (List.not_mem_nil e)
    · rw [List.mem_singleton] at h2
      refine Or.inr ⟨h2, fun _ => ?_⟩
      show (if reasonMap dec.1 = ExitReason.RESOLUTION_EXIT ∨
          reasonMap dec.1 = ExitReason.TIME_STOP
        then insertKey s.cooldowns (strat.id, inp.u.condition_id)
          (inp.now + cooldownDuration)
        else s.cooldowns) = _
      rw [if_pos hr]
  · have hev : (exitFire cfg s strat inp trade dec).2 =
        (if cfg.live_mode = true ∧ inp.exit_has_token = true
          then [Event.sellOrder inp.sell_succeeds] else []) ++
        [Event.closed strat.id inp.u.condition_id (reasonMap dec.1) dec.2 inp.now] := rfl
    rw [hev] at he
    rcases List.mem_append.mp he with h1 | h2
    · by_cases hl : cfg.live_mode = true ∧ inp.exit_has_token = true
      · rw [if_pos hl, List.mem_singleton] at h1
        exact Or.inl ⟨inp.sell_succeeds, h1⟩
      · rw [if_neg hl] at h1
        exact absurd h1 (List.not_mem_nil e)
    · rw [List.mem_singleton] at h2
      exact Or.inr ⟨h2, fun hcontra => absurd hcontra hr⟩

theorem checkExits_events (cfg : RunnerConfig) (s : RunnerState) (strat : BaseStrategy)
    (inp : StepInput) :
    ∀ e ∈ (checkExits cfg s strat inp).2,
      (∃ ok, e = Event.sellOrder ok) ∨
      (∃ r p, e = Event.closed strat.id inp.u.condition_id r p inp.now ∧
        ((r = ExitReason.RESOLUTION_EXIT ∨ r = ExitReason.TIME_STOP) →
          (checkExits cfg s strat inp).1.cooldowns =
            insertKey s.cooldowns (strat.id, inp.u.condition_id)
              (inp.now + cooldownDuration))) := by
  intro e he
  rcases checkExits_cases cfg s strat inp with heq | ⟨trade, _, _, heq⟩
  · rw [heq] at he
    exact absurd he (List.not_mem_nil e)
  · rw [heq] at he ⊢
    rcases exitFire_events cfg s strat inp trade _ e he with h | ⟨h1, h2⟩
    · exact Or.inl h
    · exact Or.inr ⟨_, _, h1, h2⟩

theorem checkEntries_events (cfg : RunnerConfig) (s : RunnerState) (strat : BaseStrategy)
    (inp : StepInput) :
    ∀ e ∈ (checkEntries cfg s strat inp).2,
      e = Event.reset ∨
      ∃ st b, e = Event.entered strat.id inp.u.condition_id st b inp.now := by
  intro e he
  rcases checkEntries_cases cfg s strat inp with heq | ⟨_, heq⟩ | ⟨untilT, _, _, heq⟩ <;>
    rw [heq] at he
  · exact absurd he (List.not_mem_nil e)
  · rcases afterCooldown_cases cfg s strat inp with
      ⟨ws, sp, ev, heq2, hev⟩ | ⟨ws, sp, stgs, tr, ev, _, _, _, _, _, heq2, hev⟩ <;>
      rw [heq2] at he
    · exact Or.inl (hev e he)
    · exact hev e he
  · rcases afterCooldown_cases cfg
        { s with cooldowns := eraseKey s.cooldowns (strat.id, inp.u.condition_id) }
        strat inp with
      ⟨ws, sp, ev, heq2, hev⟩ | ⟨ws, sp, stgs, tr, ev, _, _, _, _, _, heq2, hev⟩ <;>
      rw [heq2] at he
    · exact Or.inl (hev e he)
    · exact hev e he

theorem checkEntries_entered_cooldown (cfg : RunnerConfig) (s : RunnerState)
    (strat : BaseStrategy) (inp : StepInput) (a c : String) (st : ℚ) (b : Bool) (t' : ℚ)
    (he : Event.entered a c st b t' ∈ (checkEntries cfg s strat inp).2) :
    lookupKey s.cooldowns (strat.id, inp.u.condition_id) = none ∨
    ∃ untilT, lookupKey s.cooldowns (strat.id, inp.u.condition_id) = some untilT ∧
      ¬inp.now < untilT := by
  rcases checkEntries_cases cfg s strat inp with heq | ⟨hn, _⟩ | ⟨untilT, hu, ht, _⟩
  · rw [heq] at he
    exact absurd he (List.not_mem_nil _)
  · exact Or.inl hn
  · exact Or.inr ⟨untilT, hu, ht⟩

theorem find_strat_id (l : List BaseStrategy) (sid : String) (strat : BaseStrategy)
    (hf : l.find? (fun st => decide (st.id = sid)) = some strat) : strat.id = sid := by
  have := List.find?_some hf
  exact of_decide_eq_true this

/-- The strategy object used for the entry check after the exit check is the
same strategy (same id). -/
theorem strat1_id (cfg : RunnerConfig) (s : RunnerState) (inp : StepInput)
    (strat : BaseStrategy)
    (hf : s.strategies.find? (fun st => decide (st.id = inp.strategy_id)) = some strat) :
    ((match (checkExits cfg s strat inp).1.strategies.find?
        (fun st => decide (st.id = inp.strategy_id)) with
      | some st => st
      | none => strat : BaseStrategy)).id = strat.id := by
  rcases hf2 : (checkExits cfg s strat inp).1.strategies.find?
      (fun st => decide (st.id = inp.strategy_id)) with _ | st2
  · rw [hf2]
  · rw [hf2]
    show st2.id = strat.id
    rw [find_strat_id _ _ _ hf2, find_strat_id _ _ _ hf]

theorem step_bounded (cfg : RunnerConfig) (s : RunnerState) (inp : StepInput)
    (hb : cooldownsBounded s.cooldowns s.clock) (hc : s.clock ≤ inp.now) :
    cooldownsBounded (processStrategy cfg s inp).1.cooldowns
      (processStrategy cfg s inp).1.clock := by
  have hmono : ∀ k u, lookupKey s.cooldowns k = some u → u ≤ inp.now + cooldownDuration :=
    fun k u hu => le_trans (hb k u hu) (by linarith)
  rcases hf : s.strategies.find? (fun st => decide (st.id = inp.strategy_id)) with _ | strat
  · simp only [processStrategy, hf]
    intro k u hu
    exact hmono k u hu
  · simp only [processStrategy, hf]
    have hE : ∀ k2 u2, lookupKey (checkExits cfg s strat inp).1.cooldowns k2 = some u2 →
        u2 ≤ inp.now + cooldownDuration := by
      intro k2 u2 hu2
      rcases checkExits_cooldowns cfg s strat inp with hcc | hcc
      · rw [hcc] at hu2
        exact hmono k2 u2 hu2
      · rw [hcc] at hu2
        by_cases hkk : k2 = (strat.id, inp.u.condition_id)
        · rw [hkk, lookupKey_insert] at hu2
          injection hu2 with hu2
          rw [← hu2]
        · rw [lookupKey_insert_ne _ _ _ _ hkk] at hu2
          exact hmono k2 u2 hu2
    generalize (match (checkExits cfg s strat inp).1.strategies.find?
        (fun st => decide (st.id = inp.strategy_id)) with
      | some st => st
      | none => strat) = strat1
    intro k u hu
    show u ≤ inp.now + cooldownDuration
    rcases checkEntries_cooldowns cfg (checkExits cfg s strat inp).1 strat1 inp with
      hcc | ⟨untilT, _, _, hcc⟩
    · rw [hcc] at hu
      exact hE k u hu
    · rw [hcc] at hu
      by_cases hkk : k = (strat1.id, inp.u.condition_id)
      · rw [hkk, lookupKey_erase] at hu
        exact absurd hu (by simp)
      · rw [lookupKey_erase_ne _ _ _ hkk] at hu
        exact hE k u hu

theorem step_guard (cfg : RunnerConfig) (s : RunnerState) (inp : StepInput)
    (k : String × String) (t0 : ℚ)
    (hb : cooldownsBounded s.cooldowns s.clock)
    (hc : s.clock ≤ inp.now)
    (hg : (∃ u, lookupKey s.cooldowns k = some u ∧ t0 ≤ u) ∨ t0 ≤ s.clock) :
    ((∃ u, lookupKey (processStrategy cfg s inp).1.cooldowns k = some u ∧ t0 ≤ u) ∨
      t0 ≤ (processStrategy cfg s inp).1.clock) ∧
    (∀ st b t', Event.entered k.1 k.2 st b t' ∈ (processStrategy cfg s inp).2 →
      t0 ≤ t') := by
  rcases hf : s.strategies.find? (fun st => decide (st.id = inp.strategy_id)) with _ | strat
  · simp only [processStrategy, hf]
    constructor
    · rcases hg with ⟨u, hu, htu⟩ | hgr
      · exact Or.inl ⟨u, hu, htu⟩
      · exact Or.inr (le_trans hgr hc)
    · intro st b t' he
      exact absurd he (List.not_mem_nil _)
  · simp only [processStrategy, hf]
    have hsid1 := strat1_id cfg s inp strat hf
    generalize hgen : (match (checkExits cfg s strat inp).1.strategies.find?
        (fun st => decide (st.id = inp.strategy_id)) with
      | some st => st
      | none => strat : BaseStrategy) = strat1
    rw [hgen] at hsid1
    have hgE : (∃ u, lookupKey (checkExits cfg s strat inp).1.cooldowns k = some u ∧
        t0 ≤ u) ∨ t0 ≤ inp.now := by
      rcases checkExits_cooldowns cfg s strat inp with hcc | hcc
      · rcases hg with ⟨u, hu, htu⟩ | hgr
        · refine Or.inl ⟨u, ?_, htu⟩
          rw [hcc]
          exact hu
        · exact Or.inr (le_trans hgr hc)
      · by_cases hkk : k = (strat.id, inp.u.condition_id)
        · refine Or.inl ⟨inp.now + cooldownDuration, ?_, ?_⟩
          · rw [hcc, hkk]
            exact lookupKey_insert _ _ _
          · rcases hg with ⟨u, hu, htu⟩ | hgr
            · have := hb k u hu
              linarith
            · have hcd : (0:ℚ) ≤ cooldownDuration := by norm_num [cooldownDuration]
              linarith
        · rcases hg with ⟨u, hu, htu⟩ | hgr
          · refine Or.inl ⟨u, ?_, htu⟩
            rw [hcc, lookupKey_insert_ne _ _ _ _ hkk]
            exact hu
          · exact Or.inr (le_trans hgr hc)
    constructor
    · rcases checkEntries_cooldowns cfg (checkExits cfg s strat inp).1 strat1 inp with
        hcc | ⟨untilT, hul, hexp, hcc⟩
      · rcases hgE with ⟨u, hu, htu⟩ | hr
        · refine Or.inl ⟨u, ?_, htu⟩
          show lookupKey
            (checkEntries cfg (checkExits cfg s strat inp).1 strat1 inp).1.cooldowns k =
              some u
          rw [hcc]
          exact hu
        · exact Or.inr hr
      · by_cases hkk : k = (strat1.id, inp.u.condition_id)
        · rcases hgE with ⟨u, hu, htu⟩ | hr
          · right
            rw [hkk] at hu
            rw [hul] at hu
            injection hu with hu
            show t0 ≤ inp.now
            rw [hu] at hexp
            exact le_trans htu (le_of_not_lt hexp)
          · exact Or.inr hr
        · rcases hgE with ⟨u, hu, htu⟩ | hr
          · refine Or.inl ⟨u, ?_, htu⟩
            show lookupKey
              (checkEntries cfg (checkExits cfg s strat inp).1 strat1 inp).1.cooldowns k =
                some u
            rw [hcc, lookupKey_erase_ne _ _ _ hkk]
            exact hu
          · exact Or.inr hr
    · intro st b t' he
      replace he : Event.entered k.1 k.2 st b t' ∈
          (checkExits cfg s strat inp).2 ++
          (checkEntries cfg (checkExits cfg s strat inp).1 strat1 inp).2 := he
      rcases List.mem_append.mp he with heE | heN
      · rcases checkExits_events cfg s strat inp _ heE with ⟨ok, hok⟩ | ⟨r, p, hcl, _⟩
        · exact absurd hok (by simp)
        · exact absurd hcl (by simp)
      · rcases checkEntries_events cfg (checkExits cfg s strat inp).1 strat1 inp _ heN with
          hres | ⟨st2, b2, hent⟩
        · exact absurd hres (by simp)
        · simp only [Event.entered.injEq] at hent
          obtain ⟨hk1, hk2, _, _, ht'⟩ := hent
          subst ht'
          rcases hgE with ⟨u, hu, htu⟩ | hr
          · have hkk : (strat1.id, inp.u.condition_id) = k := by
              obtain ⟨ka, kb⟩ := k
              simp only at hk1 hk2
              rw [← hk1, ← hk2]
            rcases checkEntries_entered_cooldown cfg (checkExits cfg s strat inp).1
                strat1 inp _ _ _ _ _ heN with hnone | ⟨untilT, hul, hexp⟩
            · rw [hkk] at hnone
              rw [hnone] at hu
              exact absurd hu (by simp)
            · rw [hkk] at hul
              rw [hul] at hu
              injection hu with hu
              rw [hu] at hexp
              exact le_trans htu (le_of_not_lt hexp)
          · exact hr

theorem processStrategy_clock (cfg : RunnerConfig) (s : RunnerState) (inp : StepInput) :
    (processStrategy cfg s inp).1.clock = inp.now := by
  rcases hf : s.strategies.find? (fun st => decide (st.id = inp.strategy_id)) with _ | strat <;>
    simp only [processStrategy, hf]

theorem runSteps_no_early_entry (cfg : RunnerConfig) (inputs : List StepInput)
    (s : RunnerState) (k : String × String) (t0 : ℚ)
    (hb : cooldownsBounded s.cooldowns s.clock)
    (hs : sortedTimes s.clock inputs)
    (hg : (∃ u, lookupKey s.cooldowns k = some u ∧ t0 ≤ u) ∨ t0 ≤ s.clock) :
    ∀ st b t', Event.entered k.1 k.2 st b t' ∈ (runSteps cfg s inputs).2 → t0 ≤ t' := by
  induction inputs generalizing s with
  | nil =>
    intro st b t' he
    exact absurd he (List.not_mem_nil _)
  | cons i rest ih =>
    obtain ⟨hc, hs'⟩ := hs
    obtain ⟨hg', hev⟩ := step_guard cfg s i k t0 hb hc hg
    have hb' := step_bounded cfg s i hb hc
    intro st b t' he
    replace he : Event.entered k.1 k.2 st b t' ∈
        (processStrategy cfg s i).2 ++ (runSteps cfg (processStrategy cfg s i).1 rest).2 :=
      he
    rcases List.mem_append.mp he with h1 | h2
    · exact hev st b t' h1
    · refine ih (processStrategy cfg s i).1 hb' ?_ hg' st b t' h2
      rw [processStrategy_clock]
      exact hs'

theorem processStrategy_closed_elim (cfg : RunnerConfig) (s : RunnerState)
    (inp : StepInput) (sid cid : String) (r : ExitReason) (p t : ℚ)
    (hclose : Event.closed sid cid r p t ∈ (processStrategy cfg s inp).2) :
    t = inp.now ∧
    ((r = ExitReason.RESOLUTION_EXIT ∨ r = ExitReason.TIME_STOP) →
      lookupKey (processStrategy cfg s inp).1.cooldowns (sid, cid) =
        some (inp.now + cooldownDuration) ∧
      (∀ st b t', Event.entered sid cid st b t' ∈ (processStrategy cfg s inp).2 →
        False)) := by
  rcases hf : s.strategies.find? (fun st => decide (st.id = inp.strategy_id)) with _ | strat
  · simp only [processStrategy, hf] at hclose
    exact absurd hclose (List.not_mem_nil _)
  · have hsid1 := strat1_id cfg s inp strat hf
    simp only [processStrategy, hf] at hclose ⊢
    revert hclose
    generalize hgen : (match (checkExits cfg s strat inp).1.strategies.find?
        (fun st => decide (st.id = inp.strategy_id)) with
      | some st => st
      | none => strat : BaseStrategy) = strat1
    rw [hgen] at hsid1
    intro hclose
    have hcd : (0:ℚ) < cooldownDuration := by norm_num [cooldownDuration]
    rcases List.mem_append.mp hclose with heE | heN
    · rcases checkExits_events cfg s strat inp _ heE with ⟨ok, hok⟩ | ⟨r2, p2, hcl, harm⟩
      · exact absurd hok (by simp)
      · simp only [Event.closed.injEq] at hcl
        obtain ⟨hsid, hcid, hrr, hpp, htt⟩ := hcl
        subst htt
        refine ⟨rfl, fun hadv => ?_⟩
        have harm2 := harm (by rw [← hrr]; exact hadv)
        subst hsid
        subst hcid
        constructor
        · show lookupKey
            (checkEntries cfg (checkExits cfg s strat inp).1 strat1 inp).1.cooldowns
              (strat.id, inp.u.condition_id) = some (inp.now + cooldownDuration)
          rcases checkEntries_cooldowns cfg (checkExits cfg s strat inp).1 strat1 inp with
            hcc | ⟨untilT, hul, hexp, hcc⟩
          · rw [hcc, harm2]
            exact lookupKey_insert _ _ _
          · exfalso
            rw [hsid1, harm2, lookupKey_insert] at hul
            injection hul with hul
            rw [← hul] at hexp
            have : inp.now < inp.now + cooldownDuration := by linarith
            exact hexp this
        · intro st b t' hent
          replace hent : Event.entered strat.id inp.u.condition_id st b t' ∈
              (checkExits cfg s strat inp).2 ++
              (checkEntries cfg (checkExits cfg s strat inp).1 strat1 inp).2 := hent
          rcases List.mem_append.mp hent with h1 | h2
          · rcases checkExits_events cfg s strat inp _ h1 with ⟨ok, hok⟩ | ⟨r3, p3, hcl2, _⟩
            · exact absurd hok (by simp)
            · exact absurd hcl2 (by simp)
          · rcases checkEntries_entered_cooldown cfg (checkExits cfg s strat inp).1
                strat1 inp _ _ _ _ _ h2 with hnone | ⟨untilT, hul, hexp⟩
            · rw [hsid1, harm2, lookupKey_insert] at hnone
              exact absurd hnone (by simp)
            · rw [hsid1, harm2, lookupKey_insert] at hul
              injection hul with hul
              rw [← hul] at hexp
              have : inp.now < inp.now + cooldownDuration := by linarith
              exact hexp this
    · rcases checkEntries_events cfg (checkExits cfg s strat inp).1 strat1 inp _ heN with
        hres | ⟨st2, b2, hent⟩
      · exact absurd hres (by simp)
      · exact absurd hent (by simp)

/-- C8.  Cooldown gate: whenever the engine closes a position with
`RESOLUTION_EXIT` at time `t` (with a monotone wall clock), a cooldown for
that `(strategyId, conditionId)` is armed until `t + cooldownDuration`
(15 min), and no entry for that pair is recorded — in the same step or in any
later steps taken before the cooldown expires (all recorded entries for the
pair carry a timestamp ≥ `t + cooldownDuration`). -/
theorem polyvol_c8_cooldown_gate (cfg : RunnerConfig) (s : RunnerState) (inp : StepInput)
    (sid cid : String) (p t : ℚ) (rest : List StepInput)
    (hb : cooldownsBounded s.cooldowns s.clock)
    (hc : s.clock ≤ inp.now)
    (hclose : Event.closed sid cid ExitReason.RESOLUTION_EXIT p t ∈
      (processStrategy cfg s inp).2)
    (hsorted : sortedTimes inp.now rest) :
    lookupKey (processStrategy cfg s inp).1.cooldowns (sid, cid) =
      some (t + cooldownDuration) ∧
    (∀ st b t', Event.entered sid cid st b t' ∈ (processStrategy cfg s inp).2 →
      t + cooldownDuration ≤ t') ∧
    (∀ st b t', Event.entered sid cid st b t' ∈
        (runSteps cfg (processStrategy cfg s inp).1 rest).2 →
      t + cooldownDuration ≤ t') := by
  obtain ⟨ht, hrest⟩ := processStrategy_closed_elim cfg s inp sid cid _ p t hclose
  obtain ⟨harm, hnoent⟩ := hrest (Or.inl rfl)
  subst ht
  refine ⟨harm, fun st b t' hent => absurd hent (fun h => hnoent st b t' h), ?_⟩
  intro st b t' hent
  exact runSteps_no_early_entry cfg rest (processStrategy cfg s inp).1 (sid, cid)
    (inp.now + cooldownDuration)
    (step_bounded cfg s inp hb hc)
    (by rw [processStrategy_clock]; exact hsorted)
    (Or.inl ⟨inp.now + cooldownDuration, harm, le_refl _⟩) st b t' hent

/-- C8 witness: a concrete `RESOLUTION_EXIT` close at `t = 0` arms the
cooldown until 900 s, and a re-entry attempt at 100 s in the same market
records nothing. -/
theorem polyvol_c8_cooldown_gate_witness :
    let strat : BaseStrategy := { id := "s1", entry_threshold := 1/10, exit_threshold := 1/5 }
    let cfg : RunnerConfig := { live_mode := false }
    let tradeW : Trade :=
      { id := some 0, strategy_id := "s1", market_id := "m1", condition_id := "c1",
        asset := "BTC", side := Side.YES, entry_price := 9/100, entry_time := 0, shares := 1 }
    let sW : RunnerState :=
      { strategies := [strat], enabled_strategy_ids := ["s1"],
        open_trades := [(("s1", "c1"), tradeW)], cooldowns := [], trades_db := [tradeW],
        spending_window_start := 0, spent_in_window := 0, clock := 0 }
    let inpW : StepInput :=
      { strategy_id := "s1",
        u := { market_id := "m1", condition_id := "c1", asset := "BTC", yes_price := 3/20,
               no_price := 17/20, time_remaining := some 100, yes_bid := some (3/20) },
        now := 0, has_token := false, buy_succeeds := false, exit_has_token := false,
        sell_succeeds := false }
    let inpR : StepInput :=
      { strategy_id := "s1",
        u := { market_id := "m1", condition_id := "c1", asset := "BTC", yes_price := 2/25,
               no_price := 23/25, time_remaining := some 600, yes_ask := some (9/100) },
        now := 100, has_token := false, buy_succeeds := false, exit_has_token := false,
        sell_succeeds := false }
    lookupKey (processStrategy cfg sW inpW).1.cooldowns ("s1", "c1") =
      some (0 + cooldownDuration) ∧
    (∀ st b t', Event.entered "s1" "c1" st b t' ∈ (processStrategy cfg sW inpW).2 →
      0 + cooldownDuration ≤ t') ∧
    (∀ st b t', Event.entered "s1" "c1" st b t' ∈
        (runSteps cfg (processStrategy cfg sW inpW).1 [inpR]).2 →
      0 + cooldownDuration ≤ t') :=
  polyvol_c8_cooldown_gate _ _ _ "s1" "c1" (3/20) 0 _
    (fun k u h => absurd h (by simp [lookupKey]))
    (le_refl 0)
    (by with_unfolding_all decide)
    ⟨by norm_num, trivial⟩

/-! ## Exit persistence (C9) -/
/-- C9.  Exit persistence on executor failure: when the exit decision fires,
the runner's state after `_check_exits` does not depend on whether the live
sell succeeded; the Store row is overwritten with the closed trade carrying
the decision's exit price and exit reason, and the position is evicted from
the open-trades cache. -/
theorem polyvol_c9_exit_persistence (cfg : RunnerConfig) (s : RunnerState)
    (strat : BaseStrategy) (inp : StepInput) (trade : Trade) (j : ℕ) (r0 : Trade)
    (hlk : lookupKey s.open_trades (strat.id, inp.u.condition_id) = some trade)
    (hdec : (strat.check_exit (exitPosition strat inp trade) inp.u
        cfg.resolution_exit_threshold cfg.time_stop_threshold).1 ≠ ExitSignal.HOLD)
    (hid : trade.id = some j)
    (hrow : s.trades_db[j]? = some r0)
    (hrid : r0.id = some j) :
    (∀ b1 b2 : Bool,
      (checkExits cfg s strat { inp with sell_succeeds := b1 }).1 =
      (checkExits cfg s strat { inp with sell_succeeds := b2 }).1) ∧
    (checkExits cfg s strat inp).1.trades_db[j]? =
      some (trade.close
        (strat.check_exit (exitPosition strat inp trade) inp.u
          cfg.resolution_exit_threshold cfg.time_stop_threshold).2
        (reasonMap (strat.check_exit (exitPosition strat inp trade) inp.u
          cfg.resolution_exit_threshold cfg.time_stop_threshold).1)
        inp.u.time_remaining inp.now) ∧
    lookupKey (checkExits cfg s strat inp).1.open_trades (strat.id, inp.u.condition_id) =
      none ∧
    (∀ (p : ℚ) (r : ExitReason) (trm : Option ℚ) (now : ℚ),
      (trade.close p r trm now).exit_price = some p ∧
      (trade.close p r trm now).exit_reason = some r ∧
      (trade.close p r trm now).status = TradeStatus.CLOSED) := by
  refine ⟨?_, ?_, ?_, fun p r trm now => ⟨rfl, rfl, rfl⟩⟩
  · intro b1 b2
    obtain ⟨isid, iu, inow, iht, ibs, ieht, iss⟩ := inp
    simp only at hlk hdec
    have hpos : ∀ b : Bool,
        exitPosition strat ⟨isid, iu, inow, iht, ibs, ieht, b⟩ trade =
        exitPosition strat ⟨isid, iu, inow, iht, ibs, ieht, iss⟩ trade := fun _ => rfl
    have hfire : ∀ (b b' : Bool) (dec : ExitSignal × ℚ),
        (exitFire cfg s strat ⟨isid, iu, inow, iht, ibs, ieht, b⟩ trade dec).1 =
        (exitFire cfg s strat ⟨isid, iu, inow, iht, ibs, ieht, b'⟩ trade dec).1 :=
      fun _ _ _ => rfl
    have hdec' : (strat.check_exit
        (exitPosition strat ⟨isid, iu, inow, iht, ibs, ieht, iss⟩ trade) iu
        cfg.resolution_exit_threshold cfg.time_stop_threshold).1 ≠ ExitSignal.HOLD := hdec
    simp only [checkExits, hlk, hpos]
    rw [if_pos hdec', if_pos hdec']
    exact hfire b1 b2 _
  · have heq : checkExits cfg s strat inp =
        exitFire cfg s strat inp trade
          (strat.check_exit (exitPosition strat inp trade) inp.u
            cfg.resolution_exit_threshold cfg.time_stop_threshold) := by
      simp [checkExits, hlk, hdec]
    rw [heq]
    show (s.trades_db.map (fun r =>
        if r.id = (trade.close
          (strat.check_exit (exitPosition strat inp trade) inp.u
            cfg.resolution_exit_threshold cfg.time_stop_threshold).2
          (reasonMap (strat.check_exit (exitPosition strat inp trade) inp.u
            cfg.resolution_exit_threshold cfg.time_stop_threshold).1)
          inp.u.time_remaining inp.now).id
        then trade.close
          (strat.check_exit (exitPosition strat inp trade) inp.u
            cfg.resolution_exit_threshold cfg.time_stop_threshold).2
          (reasonMap (strat.check_exit (exitPosition strat inp trade) inp.u
            cfg.resolution_exit_threshold cfg.time_stop_threshold).1)
          inp.u.time_remaining inp.now
        else r))[j]? = _
    rw [List.getElem?_map, hrow]
    simp only [Option.map_some']
    rw [if_pos]
    rw [trade_close_id, hid, hrid]
  · have heq : checkExits cfg s strat inp =
        exitFire cfg s strat inp trade
          (strat.check_exit (exitPosition strat inp trade) inp.u
            cfg.resolution_exit_threshold cfg.time_stop_threshold) := by
      simp [checkExits, hlk, hdec]
    rw [heq]
    exact lookupKey_erase _ _



/-- Concrete instantiation of the C9 theorem: a resolution exit with the live
sell failing still closes the Store row and evicts the cache entry. -/
theorem polyvol_c9_exit_persistence_witness :
    let strat : BaseStrategy := { id := "s1", entry_threshold := 1/10, exit_threshold := 1/5 }
    let cfg : RunnerConfig := { live_mode := true }
    let tradeW : Trade :=
      { id := some 0, strategy_id := "s1", market_id := "m1", condition_id := "c1",
        asset := "BTC", side := Side.YES, entry_price := 9/100, entry_time := 0, shares := 1 }
    let sW : RunnerState :=
      { strategies := [strat], enabled_strategy_ids := ["s1"],
        open_trades := [(("s1", "c1"), tradeW)], cooldowns := [], trades_db := [tradeW],
        spending_window_start := 0, spent_in_window := 0, clock := 0 }
    let inpW : StepInput :=
      { strategy_id := "s1",
        u := { market_id := "m1", condition_id := "c1", asset := "BTC", yes_price := 1/10,
               no_price := 9/10, time_remaining := some 100 },
        now := 200, has_token := false, buy_succeeds := false, exit_has_token := true,
        sell_succeeds := false }
    (∀ b1 b2 : Bool,
      (checkExits cfg sW strat { inpW with sell_succeeds := b1 }).1 =
      (checkExits cfg sW strat { inpW with sell_succeeds := b2 }).1) ∧
    (checkExits cfg sW strat inpW).1.trades_db[0]? =
      some (tradeW.close
        (strat.check_exit (exitPosition strat inpW tradeW) inpW.u
          cfg.resolution_exit_threshold cfg.time_stop_threshold).2
        (reasonMap (strat.check_exit (exitPosition strat inpW tradeW) inpW.u
          cfg.resolution_exit_threshold cfg.time_stop_threshold).1)
        inpW.u.time_remaining inpW.now) ∧
    lookupKey (checkExits cfg sW strat inpW).1.open_trades ("s1", "c1") = none ∧
    (∀ (p : ℚ) (r : ExitReason) (trm : Option ℚ) (now : ℚ),
      (tradeW.close p r trm now).exit_price = some p ∧
      (tradeW.close p r trm now).exit_reason = some r ∧
      (tradeW.close p r trm now).status = TradeStatus.CLOSED) :=
  polyvol_c9_exit_persistence _ _ _ _ _ 0 _
    (by with_unfolding_all decide)
    (by with_unfolding_all decide)
    rfl
    rfl
    rfl

/-! ## Feed price bounds (C3) -/
/-- C3 counterexample: the feed performs no bound validation.  For an
unexpired market without CLOB token ids, a batched refresh result of
`(1.5, -0.25)` is emitted verbatim: the saved update has `yes_price > 1`
and `no_price < 0`. -/
theorem polyvol_c3_price_bounds_counterexample :
    ((collectMarket { id := "m1", condition_id := "c1", asset := "BTC", end_time := 900 }
        0 (some (3/2, -1/4)) none).map
      (fun r => decide (1 < r.2.yes_price) && decide (r.2.no_price < 0))) = some true := by
  with_unfolding_all decide

/-- Bounds propagation for `collectMarket` when the batched refresh returned
nothing for the market: if the in-memory prices and the order-book quantities
are in `[0, 1]`, so are the emitted prices. -/
theorem collectMarket_none_bounds (market : Market) (now : ℚ) (clob : Option ClobData)
    (hmy : 0 ≤ market.yes_price ∧ market.yes_price ≤ 1)
    (hmn : 0 ≤ market.no_price ∧ market.no_price ≤ 1)
    (hc : ∀ d, clob = some d →
      (∀ m, d.yes_mid = some m → 0 ≤ m ∧ m ≤ 1) ∧
      (∀ m, d.no_mid = some m → 0 ≤ m ∧ m ≤ 1) ∧
      (∀ a, d.no_ask = some a → 0 ≤ a ∧ a ≤ 1) ∧
      (∀ b, d.no_bid = some b → 0 ≤ b ∧ b ≤ 1)) :
    ∀ m' u, collectMarket market now none clob = some (m', u) →
      (0 ≤ u.yes_price ∧ u.yes_price ≤ 1) ∧ (0 ≤ u.no_price ∧ u.no_price ≤ 1) := by
  intro m' u hout
  by_cases hend : market.end_time ≤ now
  · simp [collectMarket, hend] at hout
  · simp only [collectMarket] at hout
    rw [if_neg hend] at hout
    by_cases htok : truthyStr market.yes_token_id = true ∧ truthyStr market.no_token_id = true
    · rw [if_pos htok] at hout
      rcases hcl : clob with _ | d
      · rw [hcl] at hout
        simp at hout
      · obtain ⟨hymB, hnmB, hnaB, hnbB⟩ := hc d hcl
        simp only [hcl] at hout
        rw [Option.some.injEq, Prod.mk.injEq] at hout
        obtain ⟨-, hu⟩ := hout
        subst hu
        have hC : 0 ≤ (match d.no_ask, d.no_bid with
            | some a, some b => if a = 0 ∨ b = 0 then market.no_price else (a + b) / 2
            | _, _ => market.no_price) ∧
            (match d.no_ask, d.no_bid with
            | some a, some b => if a = 0 ∨ b = 0 then market.no_price else (a + b) / 2
            | _, _ => market.no_price) ≤ 1 := by
          rcases hna : d.no_ask with _ | a
          · simp only [hna]
            exact hmn
          rcases hnb : d.no_bid with _ | b
          · simp only [hna, hnb]
            exact hmn
          by_cases hz : a = 0 ∨ b = 0
          · simp only [hna, hnb, if_pos hz]
            exact hmn
          · have ha := hnaB a hna
            have hb := hnbB b hnb
            simp only [hna, hnb, if_neg hz]
            constructor <;> linarith [ha.1, ha.2, hb.1, hb.2]
        refine ⟨?_, ?_⟩
        · rcases hym : d.yes_mid with _ | m
          · simp only [hym]
            exact hmy
          · by_cases hm0 : m = 0
            · simp only [hym, if_pos hm0]
              exact hmy
            · simp only [hym, if_neg hm0]
              exact hymB m hym
        · rcases hnm : d.no_mid with _ | m
          · simp only [hnm]
            exact hC
          · by_cases hm0 : m = 0
            · simp only [hnm, if_pos hm0]
              exact hC
            · simp only [hnm, if_neg hm0]
              exact hnmB m hnm
    · rw [if_neg htok] at hout
      rw [Option.some.injEq, Prod.mk.injEq] at hout
      obtain ⟨-, hu⟩ := hout
      subst hu
      exact ⟨hmy, hmn⟩

/-- C3 (amended).  The feed validates nothing, but it propagates bounds:
whenever the in-memory market's prices and every venue-supplied quantity
(batched refresh prices; order-book mids, no-ask and no-bid) lie in `[0, 1]`,
any emitted `PriceUpdate` has `yes_price` and `no_price` in `[0, 1]`; and when
the order-book call raises (`clob = none`) on a market with both token ids,
the market is skipped with no emission. -/
theorem polyvol_c3_feed_emission_bounds (market : Market) (now : ℚ)
    (fresh : Option (ℚ × ℚ)) (clob : Option ClobData)
    (hmy : 0 ≤ market.yes_price ∧ market.yes_price ≤ 1)
    (hmn : 0 ≤ market.no_price ∧ market.no_price ≤ 1)
    (hf : ∀ y n, fresh = some (y, n) → (0 ≤ y ∧ y ≤ 1) ∧ (0 ≤ n ∧ n ≤ 1))
    (hc : ∀ d, clob = some d →
      (∀ m, d.yes_mid = some m → 0 ≤ m ∧ m ≤ 1) ∧
      (∀ m, d.no_mid = some m → 0 ≤ m ∧ m ≤ 1) ∧
      (∀ a, d.no_ask = some a → 0 ≤ a ∧ a ≤ 1) ∧
      (∀ b, d.no_bid = some b → 0 ≤ b ∧ b ≤ 1)) :
    (∀ m' u, collectMarket market now fresh clob = some (m', u) →
      (0 ≤ u.yes_price ∧ u.yes_price ≤ 1) ∧ (0 ≤ u.no_price ∧ u.no_price ≤ 1)) ∧
    (truthyStr market.yes_token_id = true → truthyStr market.no_token_id = true →
      collectMarket market now fresh none = none) := by
  constructor
  · intro m' u hout
    rcases hfr : fresh with _ | ⟨y, n⟩
    · rw [hfr] at hout
      exact collectMarket_none_bounds market now clob hmy hmn hc m' u hout
    · rw [hfr] at hout
      exact collectMarket_none_bounds { market with yes_price := y, no_price := n } now clob
        (hf y n hfr).1 (hf y n hfr).2 hc m' u hout
  · intro hy hn
    by_cases hend : market.end_time ≤ now
    · simp [collectMarket, hend]
    · simp [collectMarket, hend, hy, hn]



/-- Concrete instantiation of the C3 bounds-propagation theorem. -/
theorem polyvol_c3_feed_emission_bounds_witness :
    let market : Market :=
      { id := "m1", condition_id := "c1", asset := "BTC", end_time := 900,
        yes_price := 2/5, no_price := 3/5,
        yes_token_id := some "yt", no_token_id := some "nt" }
    let d0 : ClobData :=
      { yes_bid := some (39/100), yes_ask := some (41/100),
        no_bid := some (59/100), no_ask := some (61/100),
        yes_mid := some (2/5), no_mid := some 0 }
    (∀ m' u, collectMarket market 0 (some (2/5, 3/5)) (some d0) = some (m', u) →
      (0 ≤ u.yes_price ∧ u.yes_price ≤ 1) ∧ (0 ≤ u.no_price ∧ u.no_price ≤ 1)) ∧
    (truthyStr market.yes_token_id = true → truthyStr market.no_token_id = true →
      collectMarket market 0 (some (2/5, 3/5)) none = none) :=
  polyvol_c3_feed_emission_bounds _ 0 _ _
    ⟨by norm_num, by norm_num⟩
    ⟨by norm_num, by norm_num⟩
    (fun y n h => by
      obtain ⟨rfl, rfl⟩ : (2/5 : ℚ) = y ∧ (3/5 : ℚ) = n := by simpa using h
      constructor <;> constructor <;> norm_num)
    (fun d h => by
      obtain rfl : _ = d := by simpa using h
      refine ⟨?_, ?_, ?_, ?_⟩ <;> intro x hx <;> simp at hx <;> subst hx <;>
        norm_num)

end Polyvol
